import Mathlib

/-!
# Verification of fin-report-reviewer

A shallow embedding of the parts of the `fin-report-reviewer` repository that
the checked claims are about, together with theorems settling each claim.

Conventions used throughout:
* Python floats are embedded as rationals (`ℚ`); a float operand that may be
  `NaN` is embedded as `PyFloat` (`nan` or a finite rational).
* `None` / missing dict keys are embedded as `Option.none`.
* Python dicts with numeric payloads are association lists.
* `round(x, n)` is embedded as rounding the rational to `n` decimal places.
* External effects (LLM calls, the wall clock, file reads) are explicit
  inputs of the embedded functions.
-/

namespace FinReport

/-- Python's `round(x, n)` on the rational embedding of floats: round the
value to `n` decimal places (tie behaviour is immaterial to the claims). -/
def roundTo (x : ℚ) (n : ℕ) : ℚ :=
  ((round (x * (10 : ℚ) ^ n) : ℤ) : ℚ) / (10 : ℚ) ^ n

/-- A Python float operand: either `NaN` or a finite value. -/
inductive PyFloat where
  | nan : PyFloat
  | val (q : ℚ) : PyFloat
deriving DecidableEq

/-- A Python dict of nullable numeric fields (`Dict[str, Any]` restricted to
the numeric payloads the calculator reads): association list from key to the
stored value, where an absent key and a stored `None` both embed to the
lookup producing `none`. -/
abbrev FinDict : Type := List (String × Option PyFloat)

/-- `data.get(key)` on a `FinDict` (missing key gives `None`). -/
def dictGet (data : FinDict) (key : String) : Option PyFloat :=
  match List.lookup key data with
  | none => none
  | some v => v

/-! ## src/tools/financial_ratio_analyzer.py : safe arithmetic -/

/-- `_safe_float`: `None` and `NaN` become `None`; finite values pass through.
(String cleaning is outside the claims; inputs are already numeric here.) -/
def safe_float : Option PyFloat → Option ℚ
  | none => none
  | some .nan => none
  | some (.val q) => some q

/-- `_safe_divide(numerator, denominator, scale, decimal_places)`: `None` when
either operand is `None` or `NaN` or the denominator is zero, otherwise
`round((numerator / denominator) * scale, decimal_places)`. -/
def safe_divide (numerator denominator : Option PyFloat) (scale : ℚ)
    (decimal_places : ℕ) : Option ℚ :=
  match numerator, denominator with
  | none, _ => none
  | _, none => none
  | some .nan, _ => none
  | _, some .nan => none
  | some (.val n), some (.val d) =>
      if d = 0 then none else some (roundTo (n / d * scale) decimal_places)

/-- `_avg(a, b)`: mean of the two periods, falling back to the available one. -/
def avg : Option ℚ → Option ℚ → Option ℚ
  | none, none => none
  | none, some b => some b
  | some a, none => some a
  | some a, some b => some ((a + b) / 2)

/-- `_g(data, key) = _safe_float(data.get(key))`. -/
def g (data : FinDict) (key : String) : Option ℚ :=
  safe_float (dictGet data key)

/-! ## Report-period parsing (`datetime.strptime(report_period, "%Y-%m-%d")`) -/

/-- A parsed Gregorian date. -/
structure PDate where
  year : ℕ
  month : ℕ
  day : ℕ
deriving DecidableEq

/-- Gregorian leap-year rule. -/
def isLeapYear (y : ℕ) : Bool :=
  (y % 4 == 0 && y % 100 != 0) || y % 400 == 0

/-- Days in a month of a given year. -/
def daysInMonth (y m : ℕ) : ℕ :=
  if m = 2 then (if isLeapYear y then 29 else 28)
  else if m = 4 ∨ m = 6 ∨ m = 9 ∨ m = 11 then 30
  else 31

/-- Split a character list on a separator character. -/
def splitOnCharAux (sep : Char) : List Char → List (List Char)
  | [] => [[]]
  | c :: t =>
    match splitOnCharAux sep t with
    | [] => [[]]
    | h :: rest => if c = sep then [] :: h :: rest else (c :: h) :: rest

/-- Value of a list of decimal digit characters. -/
def parseNatDigits : List Char → ℕ :=
  List.foldl (fun acc c => acc * 10 + (c.toNat - 48)) 0

/-- A numeric field of the date format: between `lo` and `hi` digits. -/
def numField? (lo hi : ℕ) (l : List Char) : Option ℕ :=
  if lo ≤ l.length ∧ l.length ≤ hi ∧ l.all Char.isDigit
  then some (parseNatDigits l)
  else none

/-- Model of `datetime.strptime(s, "%Y-%m-%d")`: three dash-separated decimal
fields (year up to 4 digits, month and day up to 2) forming a valid calendar
date; any other input raises `ValueError`, embedded as `none`. -/
def strptime_Ymd (s : String) : Option PDate :=
  match splitOnCharAux '-' s.data with
  | [ys, ms, ds] =>
    match numField? 1 4 ys, numField? 1 2 ms, numField? 1 2 ds with
    | some y, some m, some d =>
      if 1 ≤ m ∧ m ≤ 12 ∧ 1 ≤ d ∧ d ≤ daysInMonth y m ∧ 1 ≤ y ∧ y ≤ 9999
      then some ⟨y, m, d⟩
      else none
    | _, _, _ => none
  | _ => none

/-- `_annualization_factor(report_period)`: `{3: 4.0, 6: 2.0, 9: 4/3, 12: 1.0}`
keyed by the parsed month, defaulting to `1.0`, with `1.0` on parse failure. -/
def annualization_factor (report_period : String) : ℚ :=
  match strptime_Ymd report_period with
  | none => 1
  | some d =>
      if d.month = 3 then 4
      else if d.month = 6 then 2
      else if d.month = 9 then 4 / 3
      else if d.month = 12 then 1
      else 1

/-- `_is_quarterly(report_period)`: month ≠ 12, `False` on parse failure. -/
def is_quarterly (report_period : String) : Bool :=
  match strptime_Ymd report_period with
  | none => false
  | some d => d.month ≠ 12

/-! ## Indicator payloads

Indicator results are Python dicts mixing strings, nullable numbers and
booleans; they are embedded as association lists over a sum of those
payload types, so that field *presence* is part of the model. -/

/-- A value stored in an indicator dict. -/
inductive IndVal where
  | s (v : String)
  | q (v : Option ℚ)
  | b (v : Bool)
deriving DecidableEq

/-- An indicator result dict. -/
abbrev Indicator : Type := List (String × IndVal)

/-- Field lookup on an indicator dict. -/
def indGet (ind : Indicator) (key : String) : Option IndVal :=
  List.lookup key ind

/-- The keys present in an indicator dict. -/
def indKeys (ind : Indicator) : List String := ind.map Prod.fst

/-! ## `_RatioCalculator` (the fields and methods the claims exercise) -/

/-- `_RatioCalculator.__init__` inputs: the three statements, the previous
balance sheet (`prev_balance or {}` already applied) and the report period. -/
structure RatioCalculator where
  income : FinDict
  balance : FinDict
  cash_flow : FinDict
  prev_balance : FinDict
  report_period : String

/-- `self.ann`. -/
def RatioCalculator.ann (c : RatioCalculator) : ℚ :=
  annualization_factor c.report_period

/-- `self.quarterly`. -/
def RatioCalculator.quarterly (c : RatioCalculator) : Bool :=
  is_quarterly c.report_period

/-- `self._i(key)`. -/
def RatioCalculator.i (c : RatioCalculator) (key : String) : Option ℚ :=
  g c.income key

/-- `self._b(key)`. -/
def RatioCalculator.b (c : RatioCalculator) (key : String) : Option ℚ :=
  g c.balance key

/-- `self._pb(key)`. -/
def RatioCalculator.pb (c : RatioCalculator) (key : String) : Option ℚ :=
  g c.prev_balance key

/-- `self._b_avg(key)`: mean of opening and closing balance-sheet values. -/
def RatioCalculator.b_avg (c : RatioCalculator) (key : String) : Option ℚ :=
  avg (c.b key) (c.pb key)

/-- `_RatioCalculator.gross_margin`: `(revenue - cost) / revenue`, scaled to a
percentage with 2 decimal places; the returned dict has exactly the fields
`name, formula, value, unit, available`. -/
def gross_margin (c : RatioCalculator) : Indicator :=
  let revenue := c.i "revenue"
  let cost := c.i "cost"
  let numerator : Option PyFloat :=
    match revenue, cost with
    | some r, some co => some (.val (r - co))
    | _, _ => none
  let value := safe_divide numerator (revenue.map .val) 100 2
  [("name", .s "毛利率"),
   ("formula", .s "(营业收入 - 营业成本) / 营业收入"),
   ("value", .q value),
   ("unit", .s "%"),
   ("available", .b value.isSome)]

/-- `_RatioCalculator.return_on_equity`: annualized net profit over average
equity; `annualized` records `self.quarterly`. -/
def return_on_equity (c : RatioCalculator) : Indicator :=
  let net_profit := c.i "net_profit"
  let avg_equity := c.b_avg "total_equity"
  let net_profit_ann : Option ℚ :=
    net_profit.map (fun x => if c.quarterly then x * c.ann else x)
  let value := safe_divide (net_profit_ann.map .val) (avg_equity.map .val) 100 2
  [("name", .s "净资产收益率(ROE)"),
   ("formula", .s "净利润(年化) / 平均净资产"),
   ("value", .q value),
   ("net_profit_annualized", .q net_profit_ann),
   ("avg_equity", .q avg_equity),
   ("annualized", .b c.quarterly),
   ("unit", .s "%"),
   ("available", .b value.isSome)]

/-! ## src/extractors/indicator_extractor.py : growth rate -/

/-- `IndicatorExtractor._calculate_growth_rate(current, previous)`:
`None` when either operand is `None` or the base is zero, otherwise
`round(((current - previous) / abs(previous)) * 100, 2)`. -/
def calculate_growth_rate (current previous : Option ℚ) : Option ℚ :=
  match current, previous with
  | none, _ => none
  | _, none => none
  | some c, some p =>
      if p = 0 then none
      else some (roundTo ((c - p) / |p| * 100) 2)

/-! ## src/tools/indicator_calculation_tools.py : revenue growth tool -/

/-- `calculate_revenue_growth_tool`: the guard is Python truthiness
(`previous_revenue and previous_revenue != 0`), so `None` and `0.0` both skip
the computation; otherwise the rate divides by `abs(previous_revenue)`. -/
def calculate_revenue_growth_tool (current_revenue : ℚ)
    (previous_revenue : Option ℚ) : Option ℚ :=
  match previous_revenue with
  | none => none
  | some p =>
      if p ≠ 0 then
        some (roundTo ((current_revenue - p) / |p| * 100) 2)
      else none

/-! ## String scanning helpers shared by the workflow and the chunker -/

/-- Python's substring test `needle in hay`, on char lists. -/
def containsSubstrAux (needle : List Char) : List Char → Bool
  | [] => needle.isEmpty
  | c :: t => needle.isPrefixOf (c :: t) || containsSubstrAux needle t

/-- Python's substring test `needle in hay`. -/
def containsSubstr (hay needle : String) : Bool :=
  containsSubstrAux needle.data hay.data

/-- Matches of the regex `\d+\.?\d*%?` (as used by `re.findall` in the
quality check), counted left to right: a maximal digit run, an optional dot,
a further digit run, an optional percent sign.  The fuel is the number of
characters still to scan; every step consumes at least one character. -/
def countNumbersGo : ℕ → List Char → ℕ
  | 0, _ => 0
  | _, [] => 0
  | fuel + 1, c :: rest =>
    if c.isDigit then
      let r1 := rest.dropWhile Char.isDigit
      let r2 := match r1 with
        | '.' :: r => r.dropWhile Char.isDigit
        | _ => r1
      let r3 := match r2 with
        | '%' :: r => r
        | _ => r2
      1 + countNumbersGo fuel r3
    else countNumbersGo fuel rest

/-- Number of numeric tokens `re.findall(r'\d+\.?\d*%?', s)` finds in `s`. -/
def countNumbers (s : String) : ℕ :=
  countNumbersGo s.data.length s.data

/-! ## src/graphs/state.py : the workflow state

The embedding keeps the fields that the verified nodes and the report
generator read or write.  The statement/analysis payloads only flow into the
LLM prompt (which is modelled as an oracle) and the two wall-clock fields
(`created_at`, `processing_time`) are time effects outside every claim, so
they are omitted. -/

/-- `FinancialReportState` (the claim-relevant fields). -/
structure FinancialReportState where
  company_name : String
  company_code : String
  report_period : String
  industry : String
  report_type : String
  milvus_context : String
  all_indicators : Indicator
  final_report : String
  report_quality_score : ℚ
  errors : List String
  warnings : List String
  processing_steps : List String
  llm_calls : ℕ
  tools_called : List String
  current_step : String
  should_regenerate : Bool
  regeneration_count : ℕ
deriving DecidableEq

/-- `create_initial_state`. -/
def create_initial_state (company_name company_code report_period industry
    report_type : String) : FinancialReportState :=
  { company_name := company_name
    company_code := company_code
    report_period := report_period
    industry := industry
    report_type := report_type
    milvus_context := ""
    all_indicators := []
    final_report := ""
    report_quality_score := 0
    errors := []
    warnings := []
    processing_steps := []
    llm_calls := 0
    tools_called := []
    current_step := "init"
    should_regenerate := false
    regeneration_count := 0 }

/-! ## src/nodes/report_nodes.py -/

/-- The required sections of `quality_check_node`. -/
def required_sections : List String :=
  ["核心结论", "分项分析", "综合判断", "投资建议"]

/-- `quality_check_node`: sets the step bookkeeping, scores a non-empty
report starting from 100 with the three penalties, stores `max(0, score)`,
and decides regeneration from the raw score and the regeneration counter. -/
def quality_check_node (state : FinancialReportState) : FinancialReportState :=
  let state := { state with
    current_step := "quality_check",
    processing_steps := state.processing_steps ++ ["quality_check"] }
  if state.final_report = "" then
    { state with report_quality_score := 0, should_regenerate := false }
  else
    let score1 : ℚ := 100
    let score2 := if state.final_report.length < 500 then score1 - 20 else score1
    let missing :=
      (required_sections.filter
        (fun sec => ¬ containsSubstr state.final_report sec)).length
    let score3 := score2 - 15 * (missing : ℚ)
    let score4 := if countNumbers state.final_report < 5 then score3 - 10 else score3
    let state : FinancialReportState :=
      { state with report_quality_score := max 0 score4 }
    if score4 < 60 ∧ state.regeneration_count < 2 then
      { state with
        should_regenerate := true,
        regeneration_count := state.regeneration_count + 1 }
    else
      { state with should_regenerate := false }

/-- `generate_report_node`: the LLM chain invocation is an explicit input —
either the response content or the message of the raised exception. -/
def generate_report_node (outcome : Except String String)
    (state : FinancialReportState) : FinancialReportState :=
  let state := { state with
    current_step := "generate_report",
    processing_steps := state.processing_steps ++ ["generate_report"] }
  match outcome with
  | .ok content =>
      { state with final_report := content, llm_calls := state.llm_calls + 1 }
  | .error e =>
      { state with
        errors := state.errors ++ ["生成报告失败: " ++ e],
        final_report := "报告生成失败。" }

/-! ## src/graphs/financial_report_graph.py -/

/-- `route_after_quality_check`. -/
def route_after_quality_check (state : FinancialReportState) : String :=
  if state.should_regenerate then "regenerate" else "end"

/-- The `generate_report ⇄ quality_check` cycle of the compiled graph: run
the two nodes, follow the conditional edge, repeat on "regenerate".  The LLM
is an oracle from the attempt number to the invocation outcome; `fuel`
bounds the recursion (the engine's own recursion limit). -/
def report_loop (oracle : ℕ → Except String String) :
    ℕ → ℕ → FinancialReportState → FinancialReportState
  | attempt, fuel, st =>
    let st1 := quality_check_node (generate_report_node (oracle attempt) st)
    match fuel with
    | 0 => st1
    | fuel' + 1 =>
      if route_after_quality_check st1 = "regenerate" then
        report_loop oracle (attempt + 1) fuel' st1
      else st1

/-! ## src/analysis/report_generator.py -/

/-- A value of the result dict built by `ReportGenerator.generate_report`. -/
inductive RVal where
  | s (v : String)
  | b (v : Bool)
  | q (v : ℚ)
  | n (v : ℕ)
  | strs (v : List String)
  | ind (v : Indicator)
deriving DecidableEq

/-- The result dict of `generate_report`. -/
abbrev ResultDict : Type := List (String × RVal)

/-- Field lookup on a result dict. -/
def resGet (r : ResultDict) (key : String) : Option RVal :=
  List.lookup key r

/-- `ReportGenerator.generate_report`: the graph invocation is an explicit
input — either the final workflow state or the message of the exception the
run raised (caught by the `except` clause); `processing_time` and
`generated_at` stand for the wall-clock reads.  On success the full result
dict is built; on an exception the reduced fallback dict is returned.  The
function is total: it never propagates an exception. -/
def ReportGenerator.generate_report (company_name company_code report_period
    industry : String) (outcome : Except String FinancialReportState)
    (processing_time : ℚ) (generated_at : String) : ResultDict :=
  match outcome with
  | .ok final_state =>
      [("success", .b (final_state.errors.length = 0)),
       ("company_name", .s company_name),
       ("company_code", .s company_code),
       ("report_period", .s report_period),
       ("industry", .s industry),
       ("report", .s final_state.final_report),
       ("indicators", .ind final_state.all_indicators),
       ("processing_time", .q processing_time),
       ("generated_at", .s generated_at),
       ("llm_calls", .n final_state.llm_calls),
       ("tools_called", .strs final_state.tools_called),
       ("processing_steps", .strs final_state.processing_steps),
       ("quality_score", .q final_state.report_quality_score),
       ("errors", .strs final_state.errors),
       ("warnings", .strs final_state.warnings)]
  | .error e =>
      [("success", .b false),
       ("error", .s e),
       ("company_name", .s company_name),
       ("company_code", .s company_code),
       ("report_period", .s report_period),
       ("processing_time", .q processing_time)]

/-! ## Theorems: indicator calculator (C3, C4, C5) -/

/-- C3: for every report period parsing as a `YYYY-MM-DD` date, the
annualization factor is 4 for month 3, 2 for month 6, 4/3 for month 9 and 1
for month 12; in `return_on_equity` the factor is applied exactly once to
the flow numerator (net profit) before dividing by the stock denominator
(average equity), and the indicator's `annualized` field is true whenever
the factor was applied (i.e. on every non-annual period). -/
theorem annualization_factor_and_roe (s : String) (d : PDate)
    (inc bal cf pbal : FinDict) (hparse : strptime_Ymd s = some d) :
    (d.month = 3 → annualization_factor s = 4)
    ∧ (d.month = 6 → annualization_factor s = 2)
    ∧ (d.month = 9 → annualization_factor s = 4 / 3)
    ∧ (d.month = 12 → annualization_factor s = 1)
    ∧ indGet (return_on_equity ⟨inc, bal, cf, pbal, s⟩) "net_profit_annualized"
        = some (.q ((g inc "net_profit").map
            (fun x => if is_quarterly s then x * annualization_factor s else x)))
    ∧ indGet (return_on_equity ⟨inc, bal, cf, pbal, s⟩) "value"
        = some (.q (safe_divide
            (((g inc "net_profit").map
              (fun x => if is_quarterly s then x * annualization_factor s else x)).map .val)
            ((avg (g bal "total_equity") (g pbal "total_equity")).map .val) 100 2))
    ∧ indGet (return_on_equity ⟨inc, bal, cf, pbal, s⟩) "annualized"
        = some (.b (is_quarterly s))
    ∧ (d.month ≠ 12 → is_quarterly s = true) := by
  refine ⟨?_, ?_, ?_, ?_, rfl, rfl, rfl, ?_⟩
  · intro h; simp [annualization_factor, hparse, h]
  · intro h; simp [annualization_factor, hparse, h]
  · intro h; simp [annualization_factor, hparse, h]
  · intro h; simp [annualization_factor, hparse, h]
  · intro h; simp [is_quarterly, hparse, h]

/-- Witness for C3 at the spec's own example: period 2024-03-31, net profit
10, average equity 200 (ROE numerator annualized by a factor of 4). -/
theorem annualization_factor_and_roe_witness :
    strptime_Ymd "2024-03-31" = some ⟨2024, 3, 31⟩
    ∧ annualization_factor "2024-03-31" = 4
    ∧ indGet (return_on_equity ⟨[("net_profit", some (.val 10))],
        [("total_equity", some (.val 200))], [],
        [("total_equity", some (.val 200))], "2024-03-31"⟩) "annualized"
        = some (.b true)
    ∧ indGet (return_on_equity ⟨[("net_profit", some (.val 10))],
        [("total_equity", some (.val 200))], [],
        [("total_equity", some (.val 200))], "2024-03-31"⟩) "value"
        = some (.q (some 20)) := by
  have hparse : strptime_Ymd "2024-03-31" = some ⟨2024, 3, 31⟩ := by decide
  have h := annualization_factor_and_roe "2024-03-31" ⟨2024, 3, 31⟩
    [("net_profit", some (.val 10))] [("total_equity", some (.val 200))] []
    [("total_equity", some (.val 200))] hparse
  refine ⟨hparse, h.1 rfl, ?_, ?_⟩
  · rw [h.2.2.2.2.2.2.1]
    have hq : is_quarterly "2024-03-31" = true := by decide
    simp [hq]
  · rw [h.2.2.2.2.2.1]
    have hq : is_quarterly "2024-03-31" = true := by decide
    have hg : g [("net_profit", some (.val 10))] "net_profit" = some 10 := by decide
    have hb : g [("total_equity", some (PyFloat.val 200))] "total_equity"
        = some 200 := by decide
    rw [hq, hg, hb, h.1 rfl]
    simp only [Option.map_some, if_pos, avg, safe_divide]
    norm_num [roundTo, round_eq]

/-- C4 counterexample: a division by zero (revenue 0) in `gross_margin`
yields `value = None` and `available = False`, but the returned indicator
has NO `unavailable_reason` field at all — no reason is stored anywhere in
the result (it is only logged). -/
theorem gross_margin_no_unavailable_reason :
    indGet (gross_margin ⟨[("revenue", some (.val 0)), ("cost", some (.val 5))],
        [], [], [], "2024-12-31"⟩) "value" = some (.q none)
    ∧ indGet (gross_margin ⟨[("revenue", some (.val 0)), ("cost", some (.val 5))],
        [], [], [], "2024-12-31"⟩) "available" = some (.b false)
    ∧ indGet (gross_margin ⟨[("revenue", some (.val 0)), ("cost", some (.val 5))],
        [], [], [], "2024-12-31"⟩) "unavailable_reason" = none := by
  decide

/-- C4 amended: division by zero, null operands and NaN all yield
`value = None` with `available = False`, but no `unavailable_reason` field
is stored on the indicator (the reason is only logged). -/
theorem safe_divide_unavailable (c : RatioCalculator) :
    (∀ (n d : Option PyFloat) (s : ℚ) (p : ℕ),
      (n = none ∨ d = none ∨ n = some .nan ∨ d = some .nan ∨ d = some (.val 0)) →
      safe_divide n d s p = none)
    ∧ ((c.i "revenue" = none ∨ c.i "cost" = none ∨ c.i "revenue" = some 0) →
        indGet (gross_margin c) "value" = some (.q none)
        ∧ indGet (gross_margin c) "available" = some (.b false))
    ∧ indGet (gross_margin c) "unavailable_reason" = none := by
  refine ⟨?_, ?_, rfl⟩
  · rintro n d s p (rfl | rfl | rfl | rfl | rfl)
    · cases d with
      | none => rfl
      | some v => cases v <;> rfl
    · cases n with
      | none => rfl
      | some v => cases v <;> rfl
    · cases d with
      | none => rfl
      | some v => cases v <;> rfl
    · cases n with
      | none => rfl
      | some v => cases v <;> rfl
    · cases n with
      | none => rfl
      | some v =>
        cases v with
        | nan => rfl
        | val q => simp [safe_divide]
  · intro h
    have key : indGet (gross_margin c) "value"
          = some (.q (safe_divide
            (match c.i "revenue", c.i "cost" with
             | some r, some co => some (PyFloat.val (r - co))
             | _, _ => none)
            ((c.i "revenue").map PyFloat.val) 100 2))
        ∧ indGet (gross_margin c) "available"
          = some (.b (safe_divide
            (match c.i "revenue", c.i "cost" with
             | some r, some co => some (PyFloat.val (r - co))
             | _, _ => none)
            ((c.i "revenue").map PyFloat.val) 100 2).isSome) := ⟨rfl, rfl⟩
    have hval : safe_divide
        (match c.i "revenue", c.i "cost" with
         | some r, some co => some (PyFloat.val (r - co))
         | _, _ => none)
        ((c.i "revenue").map PyFloat.val) 100 2 = none := by
      rcases h with h | h | h
      · rw [h]
        rcases c.i "cost" with _ | q <;> rfl
      · rw [h]
        rcases hr : c.i "revenue" with _ | r
        · rfl
        · rfl
      · rw [h]
        rcases hc : c.i "cost" with _ | q
        · rfl
        · simp [safe_divide]
    rw [key.1, key.2, hval]
    exact ⟨rfl, rfl⟩

/-- Witness for C4 amended at a concrete null-operand input. -/
theorem safe_divide_unavailable_witness :
    safe_divide none (some (.val 3)) 100 2 = none
    ∧ indGet (gross_margin ⟨[], [], [], [], ""⟩) "value" = some (.q none) := by
  have h := safe_divide_unavailable ⟨[], [], [], [], ""⟩
  exact ⟨h.1 none (some (.val 3)) 100 2 (Or.inl rfl),
    (h.2.1 (Or.inl (by decide))).1⟩

/-- C5 counterexample: on the negative base −5 with current value 10 the
growth-rate computation returns 300 (the base-sign-adjusted rate), not
`None` as the claim states. -/
theorem growth_rate_negative_base_not_null :
    calculate_growth_rate (some 10) (some (-5)) ≠ none
    ∧ calculate_growth_rate (some 10) (some (-5)) = some 300 := by
  have hv : calculate_growth_rate (some 10) (some (-5)) = some 300 := by
    have h5 : ((-5 : ℚ) = 0) = False := by norm_num
    simp only [calculate_growth_rate, h5, if_false]
    norm_num [roundTo, round_eq]
  exact ⟨by simp [hv], hv⟩

/-- C5 amended: the growth-rate computation returns `None` exactly when an
operand is missing or the base is zero; on a negative base it returns the
sign-adjusted rate `round(((current - previous) / |previous|) * 100, 2)`
(never an infinite value).  The standalone revenue-growth tool behaves the
same way (its truthiness guard also skips `None` and `0`). -/
theorem growth_rate_zero_base_null (cur prev : ℚ) :
    calculate_growth_rate (some cur) (some 0) = none
    ∧ calculate_growth_rate (some cur) none = none
    ∧ calculate_growth_rate none (some prev) = none
    ∧ (prev ≠ 0 → calculate_growth_rate (some cur) (some prev)
        = some (roundTo ((cur - prev) / |prev| * 100) 2))
    ∧ calculate_revenue_growth_tool cur (some 0) = none
    ∧ calculate_revenue_growth_tool cur none = none
    ∧ (prev ≠ 0 → calculate_revenue_growth_tool cur (some prev)
        = some (roundTo ((cur - prev) / |prev| * 100) 2)) := by
  refine ⟨by simp [calculate_growth_rate], rfl, rfl, ?_,
    by simp [calculate_revenue_growth_tool], rfl, ?_⟩
  · intro h; simp [calculate_growth_rate, h]
  · intro h; simp [calculate_revenue_growth_tool, h]

/-- Witness for C5 amended at current 10, previous −5. -/
theorem growth_rate_zero_base_null_witness :
    calculate_growth_rate (some 10) (some 0) = none
    ∧ calculate_growth_rate (some 10) (some (-5))
        = some (roundTo ((10 - (-5)) / |(-5 : ℚ)| * 100) 2) := by
  have h := growth_rate_zero_base_null 10 (-5)
  exact ⟨h.1, h.2.2.2.1 (by norm_num)⟩

/-! ## Theorems: quality check and regeneration (C1, C2) -/

/-- The total penalty of the quality check, written as the spec states it:
20 for a short report, 15 for each absent required section, 10 for fewer
than five numeric tokens. -/
def quality_penalty (report : String) : ℚ :=
  (if report.length < 500 then 20 else 0)
  + 15 * ((required_sections.filter
      (fun sec => ¬ containsSubstr report sec)).length : ℚ)
  + (if countNumbers report < 5 then 10 else 0)

/-- The quality score as the claim states it: start at 100, subtract the
penalties, clamp to [0, 100]. -/
def claimed_quality_score (report : String) : ℚ :=
  min 100 (max 0 (100 - quality_penalty report))

/-- C1: on every state with a non-empty final report, the quality-check node
stores exactly the claimed score: 100 minus the three penalties, clamped to
the interval [0, 100]. -/
theorem quality_check_score_spec (st : FinancialReportState)
    (h : st.final_report ≠ "") :
    (quality_check_node st).report_quality_score
      = claimed_quality_score st.final_report
    ∧ 0 ≤ claimed_quality_score st.final_report
    ∧ claimed_quality_score st.final_report ≤ 100 := by
  refine ⟨?_, le_min (by norm_num) (le_max_left 0 _), min_le_left _ _⟩
  have hm : (0 : ℚ) ≤ ((required_sections.filter
      (fun sec => ¬ containsSubstr st.final_report sec)).length : ℚ) :=
    Nat.cast_nonneg _
  simp only [quality_check_node, claimed_quality_score, quality_penalty, h,
    apply_ite FinancialReportState.report_quality_score, if_false, ite_self]
  split_ifs <;>
    rw [min_eq_right (max_le (by norm_num) (by linarith))] <;>
    (congr 1; ring)

/-- Witness for C1 on a concrete short report lacking all sections. -/
theorem quality_check_score_spec_witness :
    ({ create_initial_state "公司" "000001" "2024-12-31" "科技" "A" with
        final_report := "简短报告" } : FinancialReportState).final_report ≠ ""
    ∧ (quality_check_node { create_initial_state "公司" "000001" "2024-12-31"
        "科技" "A" with final_report := "简短报告" }).report_quality_score
      = claimed_quality_score "简短报告" := by
  refine ⟨by decide, ?_⟩
  exact (quality_check_score_spec _ (by decide)).1

/-- C2 counterexample: on a state whose final report is empty (score 0 and
regeneration budget available, i.e. the claimed condition holds) the node
sets `should_regenerate = False` and does not touch the counter, so the
claimed equivalence fails for that workflow state. -/
theorem quality_gate_counterexample :
    ¬ (((quality_check_node (create_initial_state "公司" "000001" "2024-12-31"
            "科技" "A")).should_regenerate = true
        ∧ (quality_check_node (create_initial_state "公司" "000001" "2024-12-31"
            "科技" "A")).regeneration_count
          = (create_initial_state "公司" "000001" "2024-12-31"
              "科技" "A").regeneration_count + 1)
      ↔ ((quality_check_node (create_initial_state "公司" "000001" "2024-12-31"
            "科技" "A")).report_quality_score < 60
        ∧ (create_initial_state "公司" "000001" "2024-12-31"
            "科技" "A").regeneration_count < 2)) := by
  intro hiff
  have hscore : (quality_check_node (create_initial_state "公司" "000001"
      "2024-12-31" "科技" "A")).report_quality_score = 0 := rfl
  have h := hiff.mpr ⟨by rw [hscore]; norm_num, by decide⟩
  exact absurd h.1 (by decide)

/-- `generate_report_node` does not touch the regeneration counter. -/
theorem generate_report_node_count (o : Except String String)
    (s : FinancialReportState) :
    (generate_report_node o s).regeneration_count = s.regeneration_count := by
  cases o <;> rfl

/-- On a non-empty report the node stores `max 0 S` for the raw score `S`
and drives the regeneration flag and counter from
`S < 60 ∧ regeneration_count < 2`. -/
theorem quality_check_node_gate (st : FinancialReportState)
    (h : st.final_report ≠ "") :
    ∃ S : ℚ, (quality_check_node st).report_quality_score = max 0 S
    ∧ ((quality_check_node st).should_regenerate,
        (quality_check_node st).regeneration_count)
      = if S < 60 ∧ st.regeneration_count < 2
        then (true, st.regeneration_count + 1)
        else (false, st.regeneration_count) := by
  refine ⟨if countNumbers st.final_report < 5
      then (if st.final_report.length < 500 then (100 : ℚ) - 20 else 100)
        - 15 * ((required_sections.filter
            (fun sec => ¬ containsSubstr st.final_report sec)).length : ℚ) - 10
      else (if st.final_report.length < 500 then (100 : ℚ) - 20 else 100)
        - 15 * ((required_sections.filter
            (fun sec => ¬ containsSubstr st.final_report sec)).length : ℚ),
    ?_, ?_⟩
  · simp only [quality_check_node]
    rw [if_neg h]
    split_ifs <;> rfl
  · simp only [quality_check_node]
    rw [if_neg h]
    split_ifs <;> rfl

/-- The quality-check node never pushes the regeneration counter above 2. -/
theorem quality_check_count_le (s : FinancialReportState)
    (h : s.regeneration_count ≤ 2) :
    (quality_check_node s).regeneration_count ≤ 2 := by
  by_cases hemp : s.final_report = ""
  · have : (quality_check_node s).regeneration_count = s.regeneration_count := by
      simp only [quality_check_node]
      rw [if_pos hemp]
    rw [this]
    exact h
  · obtain ⟨S, -, hgate⟩ := quality_check_node_gate s hemp
    by_cases hc : S < 60 ∧ s.regeneration_count < 2
    · rw [if_pos hc, Prod.mk.injEq] at hgate
      rw [hgate.2]
      omega
    · rw [if_neg hc, Prod.mk.injEq] at hgate
      rw [hgate.2]
      exact h

/-- C2 amended: for states with a NON-EMPTY final report the node sets
`should_regenerate` and increments the counter exactly when the computed
score is below 60 and the counter was below 2, and otherwise leaves the
counter alone with `should_regenerate = False`; for an EMPTY final report it
always sets `should_regenerate = False` (even though the stored score 0 is
below 60 — this is where the claim as stated fails).  Along the
generate/check cycle the counter never exceeds 2, so every run starting from
the initial state ends with `regeneration_count ≤ 2`. -/
theorem quality_gate_amended :
    (∀ st : FinancialReportState, st.final_report ≠ "" →
      ((((quality_check_node st).should_regenerate = true
          ∧ (quality_check_node st).regeneration_count
            = st.regeneration_count + 1)
        ↔ ((quality_check_node st).report_quality_score < 60
            ∧ st.regeneration_count < 2))
       ∧ (¬ ((quality_check_node st).report_quality_score < 60
              ∧ st.regeneration_count < 2) →
           (quality_check_node st).should_regenerate = false
           ∧ (quality_check_node st).regeneration_count
             = st.regeneration_count)))
    ∧ (∀ st : FinancialReportState, st.final_report = "" →
        (quality_check_node st).should_regenerate = false
        ∧ (quality_check_node st).regeneration_count = st.regeneration_count)
    ∧ (∀ (oracle : ℕ → Except String String) (attempt fuel : ℕ)
        (st : FinancialReportState), st.regeneration_count ≤ 2 →
        (report_loop oracle attempt fuel st).regeneration_count ≤ 2)
    ∧ (∀ (oracle : ℕ → Except String String) (attempt fuel : ℕ)
        (cn cc rp ind rt : String),
        (report_loop oracle attempt fuel
          (create_initial_state cn cc rp ind rt)).regeneration_count ≤ 2) := by
  have hloop : ∀ (oracle : ℕ → Except String String) (attempt fuel : ℕ)
      (st : FinancialReportState), st.regeneration_count ≤ 2 →
      (report_loop oracle attempt fuel st).regeneration_count ≤ 2 := by
    intro oracle attempt fuel
    induction fuel generalizing attempt with
    | zero =>
      intro st h
      simp only [report_loop]
      exact quality_check_count_le _
        (by rw [generate_report_node_count]; exact h)
    | succ fuel ih =>
      intro st h
      simp only [report_loop]
      split_ifs with hr
      · exact ih _ _ (quality_check_count_le _
          (by rw [generate_report_node_count]; exact h))
      · exact quality_check_count_le _
          (by rw [generate_report_node_count]; exact h)
  refine ⟨?_, ?_, hloop, fun oracle attempt fuel cn cc rp ind rt =>
    hloop oracle attempt fuel _ (Nat.zero_le 2)⟩
  · intro st h
    obtain ⟨S, hS, hgate⟩ := quality_check_node_gate st h
    rw [hS]
    by_cases hc : S < 60 ∧ st.regeneration_count < 2
    · rw [if_pos hc, Prod.mk.injEq] at hgate
      obtain ⟨hflag, hcount⟩ := hgate
      constructor
      · constructor
        · intro _
          exact ⟨max_lt_iff.mpr ⟨by norm_num, hc.1⟩, hc.2⟩
        · intro _
          exact ⟨hflag, hcount⟩
      · intro hk
        exact absurd ⟨max_lt_iff.mpr ⟨by norm_num, hc.1⟩, hc.2⟩ hk
    · rw [if_neg hc, Prod.mk.injEq] at hgate
      obtain ⟨hflag, hcount⟩ := hgate
      constructor
      · constructor
        · intro hl
          rw [hflag] at hl
          exact absurd hl.1 (by simp)
        · intro hr
          exact absurd ⟨(max_lt_iff.mp hr.1).2, hr.2⟩ hc
      · intro _
        exact ⟨hflag, hcount⟩
  · intro st h
    constructor
    · simp only [quality_check_node]
      rw [if_pos h]
    · simp only [quality_check_node]
      rw [if_pos h]

/-- Witness for C2 amended: a concrete non-empty low-quality report with
regeneration budget triggers the gate, and a short concrete run ends with
the counter within the bound. -/
theorem quality_gate_amended_witness :
    ({ create_initial_state "公司" "000001" "2024-12-31" "科技" "A" with
        final_report := "简短" } : FinancialReportState).final_report ≠ ""
    ∧ (report_loop (fun _ => .ok "报告") 0 3
        (create_initial_state "公司" "000001" "2024-12-31" "科技"
          "A")).regeneration_count ≤ 2 := by
  refine ⟨by decide, ?_⟩
  exact (quality_gate_amended.2.2.2) (fun _ => .ok "报告") 0 3 "公司" "000001"
    "2024-12-31" "科技" "A"

/-! ## Theorems: report generator result contract (C9) -/

/-- C9 counterexample: when the workflow invocation raises (here with
message "boom"), `generate_report` returns the reduced fallback dict — it
has `success = False` but NO `report`, `indicators`, `llm_calls`,
`processing_steps`, `quality_score`, `errors` or `warnings` fields, so the
claim that the result always contains all ten fields is false. -/
theorem generate_report_exception_result_reduced :
    resGet (ReportGenerator.generate_report "贵州茅台" "600519" "2024-12-31"
      "白酒" (.error "boom") 0 "t0") "report" = none
    ∧ resGet (ReportGenerator.generate_report "贵州茅台" "600519" "2024-12-31"
      "白酒" (.error "boom") 0 "t0") "errors" = none
    ∧ resGet (ReportGenerator.generate_report "贵州茅台" "600519" "2024-12-31"
      "白酒" (.error "boom") 0 "t0") "success" = some (.b false) := by
  exact ⟨rfl, rfl, rfl⟩

/-- C9 amended: `generate_report` is a total function of the invocation
outcome (it never re-raises).  When the workflow returns a final state, the
result dict contains all ten claimed fields and `success` is true exactly
when the final state's error list is empty (so a run with errors and a
non-empty report comes back with `success = False` and the errors attached);
when the workflow raises, the reduced fallback dict
`{success: False, error, company_name, company_code, report_period,
processing_time}` is returned instead. -/
theorem generate_report_contract (cn cc rp ind : String)
    (fs : FinancialReportState) (e : String) (pt : ℚ) (ga : String) :
    (∀ k ∈ (["success", "report", "indicators", "processing_time",
        "llm_calls", "tools_called", "processing_steps", "quality_score",
        "errors", "warnings"] : List String),
      k ∈ (ReportGenerator.generate_report cn cc rp ind (.ok fs) pt ga).map
        Prod.fst)
    ∧ resGet (ReportGenerator.generate_report cn cc rp ind (.ok fs) pt ga)
        "success" = some (.b (decide (fs.errors.length = 0)))
    ∧ (fs.errors ≠ [] →
        resGet (ReportGenerator.generate_report cn cc rp ind (.ok fs) pt ga)
          "success" = some (.b false))
    ∧ (fs.errors = [] →
        resGet (ReportGenerator.generate_report cn cc rp ind (.ok fs) pt ga)
          "success" = some (.b true))
    ∧ resGet (ReportGenerator.generate_report cn cc rp ind (.ok fs) pt ga)
        "report" = some (.s fs.final_report)
    ∧ resGet (ReportGenerator.generate_report cn cc rp ind (.ok fs) pt ga)
        "errors" = some (.strs fs.errors)
    ∧ (ReportGenerator.generate_report cn cc rp ind (.error e) pt ga).map
        Prod.fst = ["success", "error", "company_name", "company_code",
          "report_period", "processing_time"]
    ∧ resGet (ReportGenerator.generate_report cn cc rp ind (.error e) pt ga)
        "success" = some (.b false) := by
  refine ⟨?_, rfl, ?_, ?_, rfl, rfl, rfl, rfl⟩
  · intro k hk
    fin_cases hk <;> simp [ReportGenerator.generate_report]
  · intro h
    have h0 : decide (fs.errors.length = 0) = false := by
      simp [List.length_eq_zero, h]
    have base : resGet (ReportGenerator.generate_report cn cc rp ind
        (.ok fs) pt ga) "success"
        = some (.b (decide (fs.errors.length = 0))) := rfl
    rw [base, h0]
  · intro h
    have h0 : decide (fs.errors.length = 0) = true := by
      simp [h]
    have base : resGet (ReportGenerator.generate_report cn cc rp ind
        (.ok fs) pt ga) "success"
        = some (.b (decide (fs.errors.length = 0))) := rfl
    rw [base, h0]

/-- Witness for C9 amended: a concrete final state carrying one error and a
non-empty report is surfaced with `success = False` and the errors kept. -/
theorem generate_report_contract_witness :
    resGet (ReportGenerator.generate_report "公司" "000001" "2024-12-31" "科技"
      (.ok { create_initial_state "公司" "000001" "2024-12-31" "科技" "A" with
        final_report := "报告正文", errors := ["数据获取失败"] }) 1 "t0")
      "success" = some (.b false)
    ∧ resGet (ReportGenerator.generate_report "公司" "000001" "2024-12-31" "科技"
      (.ok { create_initial_state "公司" "000001" "2024-12-31" "科技" "A" with
        final_report := "报告正文", errors := ["数据获取失败"] }) 1 "t0")
      "report" = some (.s "报告正文") := by
  have h := generate_report_contract "公司" "000001" "2024-12-31" "科技"
    { create_initial_state "公司" "000001" "2024-12-31" "科技" "A" with
      final_report := "报告正文", errors := ["数据获取失败"] } "e" 1 "t0"
  exact ⟨h.2.2.1 (by decide), h.2.2.2.2.1⟩

/-! ## src/ingestion/markdown_chunker.py

The chunker is embedded over `String`/`List Char` with structural
recursion (fuel where the Python recursion is on shrinking text).  Newlines
are `'\n'` (the chunker consumes UTF-8 Markdown produced by the pipeline).
The wall-clock read `int(time.time())` in `chunk_text` and the file read of
`chunk_file` are explicit inputs. -/

/-- Python `str.strip()` on a char list. -/
def pyStripList (l : List Char) : List Char :=
  ((l.dropWhile Char.isWhitespace).reverse.dropWhile Char.isWhitespace).reverse

/-- Python `str.strip()`. -/
def pyStrip (s : String) : String := String.mk (pyStripList s.data)

/-- Python `str.strip("\n")`. -/
def stripNewlines (s : String) : String :=
  String.mk (((s.data.dropWhile (· = '\n')).reverse.dropWhile
    (· = '\n')).reverse)

/-- Python `str.startswith`. -/
def pyStartsWith (s p : String) : Bool := p.data.isPrefixOf s.data

/-- Python `str.endswith`. -/
def pyEndsWith (s p : String) : Bool := p.data.isSuffixOf s.data

/-- Python `str.lower()` (ASCII; CJK characters are fixed points). -/
def strToLower (s : String) : String := String.mk (s.data.map Char.toLower)

/-- `sep.join(parts)`. -/
def intercalateStr (sep : String) : List String → String
  | [] => ""
  | [x] => x
  | x :: xs => x ++ sep ++ intercalateStr sep xs

/-- Case-insensitive prefix test (`re.IGNORECASE` over the ASCII tags). -/
def ciIsPrefixOf (needle hay : List Char) : Bool :=
  (needle.map Char.toLower).isPrefixOf (hay.map Char.toLower)

/-- Index of the first case-insensitive occurrence of `needle`. -/
def findCI (needle : List Char) : List Char → Option ℕ
  | [] => if needle.isEmpty then some 0 else none
  | c :: t =>
    if ciIsPrefixOf needle (c :: t) then some 0
    else (findCI needle t).map (· + 1)

/-- Number of case-insensitive occurrences of `needle` (one per start
position at which it matches). -/
def countCI (needle : List Char) : List Char → ℕ
  | [] => 0
  | c :: t => (if ciIsPrefixOf needle (c :: t) then 1 else 0) + countCI needle t

/-- One match of `TABLE_PATTERN = <table[\s\S]*?</table>` (case-insensitive,
lazy): the match starts at the first `<table` and ends at the first
`</table>` after it; returns (prefix, matched span, suffix). -/
def tableSplit (l : List Char) : Option (List Char × List Char × List Char) :=
  match findCI "<table".data l with
  | none => none
  | some i =>
    let rest := l.drop i
    match findCI "</table>".data (rest.drop 6) with
    | none => none
    | some j =>
      some (l.take i, rest.take (6 + j + 8), rest.drop (6 + j + 8))

/-- The substitution loop of `_extract_tables`: each table span becomes
`"\n[[TABLE_BLOCK_<n>]]\n"` and the map records `placeholder ↦ span.strip()`.
Every step consumes at least the span, so `fuel = length` is enough. -/
def extract_tables_go : ℕ → List Char → ℕ → List Char × List (String × String)
  | 0, l, _ => (l, [])
  | fuel + 1, l, n =>
    match tableSplit l with
    | none => (l, [])
    | some (pre, span, post) =>
      let ph := "[[TABLE_BLOCK_" ++ toString n ++ "]]"
      let r := extract_tables_go fuel post (n + 1)
      (pre ++ ("\n" ++ ph ++ "\n").data ++ r.1,
       (ph, String.mk (pyStripList span)) :: r.2)

/-- `_extract_tables`. -/
def extract_tables (text : String) : String × List (String × String) :=
  let r := extract_tables_go text.data.length text.data 0
  (String.mk r.1, r.2)

/-- The `Block` dataclass. -/
structure Block where
  type : String
  text : String
  level : Option ℕ
  heading_text : Option String
deriving DecidableEq

/-- `str.splitlines()` for `'\n'`-separated text (no trailing empty piece). -/
def splitlines (l : List Char) : List (List Char) :=
  if l = [] then []
  else
    let parts := splitOnCharAux '\n' l
    if parts.getLast? = some [] then parts.dropLast else parts

/-- Match of `^(#{1,6})\s+(.*)$` on a stripped line: 1-6 leading hashes
followed by at least one whitespace character; the title is the rest after
the whitespace run, stripped. -/
def headingMatch (stripped : String) : Option (ℕ × String) :=
  let l := stripped.data
  let k := (l.takeWhile (· = '#')).length
  if 1 ≤ k ∧ k ≤ 6 then
    match l.drop k with
    | c :: cs =>
      if c.isWhitespace then
        some (k, String.mk (pyStripList ((c :: cs).dropWhile Char.isWhitespace)))
      else none
    | [] => none
  else none

/-- Match of `^(\*|-|\+)\s+`. -/
def bulletMatch (l : List Char) : Bool :=
  match l with
  | c :: d :: _ => (c = '*' || c = '-' || c = '+') && d.isWhitespace
  | _ => false

/-- Match of `^\d+\.\s+`. -/
def numListMatch (l : List Char) : Bool :=
  let ds := l.takeWhile Char.isDigit
  if ds.isEmpty then false
  else
    match l.drop ds.length with
    | '.' :: c :: _ => c.isWhitespace
    | _ => false

/-- The line loop of `_split_into_blocks`: state is (accumulated blocks,
line buffer, buffer type, in-code flag, code fence). -/
def split_lines_go : List (List Char) → List Block → List String →
    Option String → Bool → Option String → List Block
  | [], blocks, buf, buf_type, _, _ =>
    if buf = [] then blocks
    else blocks ++ [⟨buf_type.getD "paragraph", intercalateStr "\n" buf,
      none, none⟩]
  | rawLine :: ls, blocks, buf, buf_type, in_code, fence =>
    let line := String.mk rawLine
    let stripped := pyStrip line
    if in_code then
      let buf := buf ++ [line]
      if pyStartsWith stripped (fence.getD "```") then
        split_lines_go ls (blocks ++ [⟨"code", intercalateStr "\n" buf,
          none, none⟩]) [] none false fence
      else split_lines_go ls blocks buf buf_type true fence
    else if pyStartsWith stripped "```" || pyStartsWith stripped "~~~" then
      let blocks := if buf = [] then blocks
        else blocks ++ [⟨buf_type.getD "paragraph", intercalateStr "\n" buf,
          none, none⟩]
      split_lines_go ls blocks [line] (some "code") true
        (some (String.mk (stripped.data.take 3)))
    else if stripped = "" then
      let blocks := if buf = [] then blocks
        else blocks ++ [⟨buf_type.getD "paragraph", intercalateStr "\n" buf,
          none, none⟩]
      split_lines_go ls blocks [] none false fence
    else
      match headingMatch stripped with
      | some lt =>
        let blocks := if buf = [] then blocks
          else blocks ++ [⟨buf_type.getD "paragraph", intercalateStr "\n" buf,
            none, none⟩]
        split_lines_go ls (blocks ++ [⟨"heading", stripped, some lt.1,
          some lt.2⟩]) [] none false fence
      | none =>
        if pyStartsWith stripped "[[TABLE_BLOCK_" && pyEndsWith stripped "]]"
        then
          let blocks := if buf = [] then blocks
            else blocks ++ [⟨buf_type.getD "paragraph",
              intercalateStr "\n" buf, none, none⟩]
          split_lines_go ls (blocks ++ [⟨"table", stripped, none, none⟩])
            [] none false fence
        else if bulletMatch stripped.data || numListMatch stripped.data then
          if buf_type ≠ none ∧ buf_type ≠ some "list" then
            split_lines_go ls (blocks ++ [⟨buf_type.getD "paragraph",
              intercalateStr "\n" buf, none, none⟩]) [line] (some "list")
              false fence
          else
            split_lines_go ls blocks (buf ++ [line]) (some "list") false fence
        else
          if buf_type ≠ none ∧ buf_type ≠ some "paragraph" then
            split_lines_go ls (blocks ++ [⟨buf_type.getD "paragraph",
              intercalateStr "\n" buf, none, none⟩]) [line] (some "paragraph")
              false fence
          else
            split_lines_go ls blocks (buf ++ [line]) (some "paragraph")
              false fence

/-- `_split_into_blocks`. -/
def split_into_blocks (text : String) : List Block :=
  split_lines_go (splitlines text.data) [] [] none false none

/-- The sentence terminator class `[。！？!?；;．.]`. -/
def sentence_terminators : List Char :=
  ['。', '！', '？', '!', '?', '；', ';', '．', '.']

/-- The lazy quantifier scan of `SENTENCE_PATTERN = .+?(?:[。！？!?；;．.](?!\d)|$)`
after at least one character has been consumed: stop at the first terminator
not followed by a digit, or at the end of the string (also just before a
trailing newline); fail when a non-final newline is reached (`.` does not
match newlines). -/
def tryMatch : List Char → List Char → Option (List Char × List Char)
  | acc, [] => some (acc.reverse, [])
  | acc, c :: rest =>
    if sentence_terminators.contains c
        && !(match rest with | d :: _ => d.isDigit | [] => false) then
      some ((c :: acc).reverse, rest)
    else if c = '\n' then
      if rest = [] then some (acc.reverse, c :: rest) else none
    else tryMatch (c :: acc) rest

/-- A match of `SENTENCE_PATTERN` anchored at the current position. -/
def matchFrom : List Char → Option (List Char × List Char)
  | [] => none
  | c :: rest => if c = '\n' then none else tryMatch [c] rest

/-- `re.findall(SENTENCE_PATTERN, ·)`: scan left to right, skipping
positions where no match starts.  Every step consumes at least one
character, so `fuel = length` is enough. -/
def sentenceFindallGo : ℕ → List Char → List (List Char)
  | 0, _ => []
  | _, [] => []
  | fuel + 1, c :: rest =>
    match matchFrom (c :: rest) with
    | some mr => mr.1 :: sentenceFindallGo fuel mr.2
    | none => sentenceFindallGo fuel rest

/-- The sentence list of `_split_by_sentence` before packing. -/
def sentence_findall (s : String) : List String :=
  (sentenceFindallGo s.data.length s.data).map String.mk

/-- The greedy re-packing loop of `_split_by_sentence`. -/
def packSentences (maxc : ℕ) : List String → String → List String
  | [], buffer => if buffer = "" then [] else [buffer]
  | sent :: rest, buffer =>
    if buffer = "" then packSentences maxc rest sent
    else
      let candidate := pyStrip (buffer ++ " " ++ sent)
      if candidate.length ≤ maxc then packSentences maxc rest candidate
      else if maxc < sent.length then
        buffer :: sent :: packSentences maxc rest ""
      else buffer :: packSentences maxc rest sent

/-- `_split_by_sentence`. -/
def split_by_sentence (maxc : ℕ) (paragraph : String) : List String :=
  let sentences := ((sentence_findall paragraph).map pyStrip).filter
    (fun x => x ≠ "")
  if sentences = [] then [paragraph]
  else packSentences maxc sentences ""

/-- `_block_to_segments`. -/
def block_to_segments (maxc : ℕ) (b : Block) : List String :=
  if b.type = "paragraph" ∨ b.type = "list" ∨ b.type = "quote" then
    let text := pyStrip b.text
    if text = "" then []
    else if text.length ≤ maxc then [text]
    else split_by_sentence maxc text
  else if b.type = "code" then [stripNewlines b.text]
  else [b.text]

/-- The `HeadingInfo` dataclass. -/
structure HeadingInfo where
  level : ℕ
  title : String
  line : String
deriving DecidableEq

/-- `_update_heading_stack`: pop stack entries with level ≥ the new level,
then push. -/
def update_heading_stack (stack : List HeadingInfo) (b : Block) :
    List HeadingInfo :=
  match b.level with
  | none => stack
  | some lv =>
    (stack.reverse.dropWhile (fun h => lv ≤ h.level)).reverse
      ++ [⟨lv, b.heading_text.getD "", pyStrip b.text⟩]

/-- `_compose_chunk_text`: heading lines, a blank line, then the body. -/
def compose_chunk_text (body : String) (heading_lines : List String) :
    String :=
  let body := pyStrip body
  if body = "" then intercalateStr "\n" heading_lines
  else if heading_lines = [] then body
  else pyStrip (intercalateStr "\n" heading_lines) ++ "\n\n" ++ body

/-- `_join_body`. -/
def join_body (parts : List String) : String :=
  pyStrip (intercalateStr "\n\n"
    ((parts.filter (fun p => pyStrip p ≠ "")).map stripNewlines))

/-- `_classify_chunk`: the `table` test on the lowered text, then the rules
table on `" ".join(title_path) + " " + text` in insertion order. -/
def classify_chunk (text : String) (title_path : List String) : String :=
  let lowered := strToLower text
  if containsSubstr lowered "<table" && containsSubstr lowered "</table>"
  then "table"
  else
    let corpus := intercalateStr " " title_path ++ " " ++ text
    if ["管理层讨论", "经营情况", "分析", "讨论与分析"].any
        (fun kw => containsSubstr corpus kw) then "management_discussion"
    else if ["财务状况", "利润", "成本", "费用", "毛利", "收入", "财务"].any
        (fun kw => containsSubstr corpus kw) then "financial_analysis"
    else if ["现金流", "经营活动产生", "投资活动", "筹资活动"].any
        (fun kw => containsSubstr corpus kw) then "cashflow"
    else if ["风险", "重大事项", "诉讼", "承诺", "不确定性"].any
        (fun kw => containsSubstr corpus kw) then "risk"
    else if ["治理", "董事会", "监事会", "内控", "审计"].any
        (fun kw => containsSubstr corpus kw) then "governance"
    else if ["主营业务", "行业情况", "产品", "市场", "区域"].any
        (fun kw => containsSubstr corpus kw) then "business_overview"
    else if ["重要提示", "摘要"].any
        (fun kw => containsSubstr corpus kw) then "summary"
    else if ["附注", "补充资料"].any
        (fun kw => containsSubstr corpus kw) then "notes"
    else "other"

/-- A chunk dict. -/
structure Chunk where
  chunk_id : String
  chunk_index : ℕ
  chunk_text : String
  chunk_length : ℕ
  title_path : List String
  title : String
  title_level : ℕ
  chunk_type : String
  created_at : ℤ
  file_path : String
deriving DecidableEq

/-- The mutable state of the `chunk_text` loop. -/
structure LoopState where
  heading_stack : List HeadingInfo
  current_lines : List String
  current_length : ℕ
  chunks : List Chunk
  chunk_index : ℕ
deriving DecidableEq

/-- The nested `add_chunk` closure: emit one chunk composed from the open
heading stack and reset the line buffer. -/
def add_chunk (created_at : ℤ) (file_path : String) (st : LoopState)
    (body : String) : LoopState :=
  let body := pyStrip body
  if body = "" then st
  else
    let title_path := st.heading_stack.map (fun h => h.title)
    let heading_lines := st.heading_stack.map (fun h => h.line)
    let ctext := compose_chunk_text body heading_lines
    let ctype := classify_chunk ctext title_path
    { heading_stack := st.heading_stack
      current_lines := []
      current_length := 0
      chunks := st.chunks ++ [{
        chunk_id := "ck_" ++ toString st.chunk_index
        chunk_index := st.chunk_index
        chunk_text := ctext
        chunk_length := ctext.length
        title_path := title_path
        title := title_path.getLast?.getD ""
        title_level := title_path.length
        chunk_type := ctype
        created_at := created_at
        file_path := file_path }]
      chunk_index := st.chunk_index + 1 }

/-- The nested `flush_current_chunk` closure. -/
def flush_current (created_at : ℤ) (file_path : String) (st : LoopState) :
    LoopState :=
  let body := join_body st.current_lines
  if body ≠ "" then add_chunk created_at file_path st body else st

/-- The segment loop body of `chunk_text`. -/
def process_segment (maxc : ℕ) (created_at : ℤ) (fp : String)
    (st : LoopState) (seg : String) : LoopState :=
  let segment := pyStrip seg
  if segment = "" then st
  else if maxc < segment.length then
    add_chunk created_at fp (flush_current created_at fp st) segment
  else
    let st := (if st.current_length ≠ 0
        ∧ maxc < st.current_length + segment.length + 2
      then flush_current created_at fp st else st)
    { st with
      current_lines := st.current_lines ++ [segment],
      current_length := st.current_length + segment.length + 2 }

/-- The block loop body of `chunk_text`. -/
def process_block (maxc : ℕ) (tmap : List (String × String))
    (created_at : ℤ) (fp : String) (st : LoopState) (b : Block) : LoopState :=
  if b.type = "heading" then
    let st := flush_current created_at fp st
    { st with heading_stack := update_heading_stack st.heading_stack b }
  else if b.type = "table" then
    let st := flush_current created_at fp st
    let table_text := (tmap.lookup (pyStrip b.text)).getD b.text
    add_chunk created_at fp st table_text
  else
    (block_to_segments maxc b).foldl (process_segment maxc created_at fp) st

/-- The `MarkdownChunker` configuration (`__init__`). -/
structure MarkdownChunker where
  max_chunk_chars : ℕ
  min_chunk_chars : ℕ
deriving DecidableEq

/-- `MarkdownChunker.chunk_text`; `created_at` is the `int(time.time())`
read. -/
def chunk_text (cfg : MarkdownChunker) (markdown_text : String)
    (file_path : String) (created_at : ℤ) : List Chunk :=
  let safe := extract_tables markdown_text
  let blocks := split_into_blocks safe.1
  let st := blocks.foldl
    (process_block cfg.max_chunk_chars safe.2 created_at file_path)
    ⟨[], [], 0, [], 0⟩
  let st := flush_current created_at file_path st
  if st.chunks = [] ∧ st.heading_stack ≠ [] then
    let heading_only := intercalateStr "\n"
      (st.heading_stack.map (fun h => h.line))
    [{ chunk_id := "ck_0"
       chunk_index := 0
       chunk_text := heading_only
       chunk_length := heading_only.length
       title_path := st.heading_stack.map (fun h => h.title)
       title := ((st.heading_stack.map (fun h => h.title)).getLast?).getD ""
       title_level := st.heading_stack.length
       chunk_type := "other"
       created_at := created_at
       file_path := file_path }]
  else st.chunks

/-- `MarkdownChunker.chunk_file`: the file read is an explicit input — the
byte-identical `contents` of the file at `markdown_path`. -/
def chunk_file (cfg : MarkdownChunker) (markdown_path : String)
    (contents : String) (created_at : ℤ) : List Chunk :=
  chunk_text cfg contents markdown_path created_at

/-! ## Theorems: segment merging and `min_chunk_chars` (C7) -/

/-- C7 counterexample: with `max_chunk_chars = 10` and `min_chunk_chars = 5`
the paragraph "aaaaaaaa。bb。" is split into two chunks whose bodies are the
two sentences; the second chunk has length 3 < `min_chunk_chars` and is NOT
merged into the preceding one, even though it is not the only segment. -/
theorem short_segment_not_merged :
    (chunk_text ⟨10, 5⟩ "aaaaaaaa。bb。" "" 0).map (fun c => c.chunk_text)
      = ["aaaaaaaa。", "bb。"]
    ∧ (chunk_text ⟨10, 5⟩ "aaaaaaaa。bb。" "" 0).map (fun c => c.chunk_length)
      = [9, 3]
    ∧ 3 < 5 := by
  exact ⟨by decide, by decide, by decide⟩

/-- C7 amended: the chunker performs no minimum-length merging at all —
`min_chunk_chars` is stored by `__init__` but never read, so the produced
chunks are the same for every value of `min_chunk_chars`, and a split
segment shorter than `min_chars` is emitted as its own chunk (see the
counterexample).  Splitting re-packs sentences greedily up to
`max_chunk_chars` only. -/
theorem min_chunk_chars_unused (M m1 m2 : ℕ) (text fp : String) (t : ℤ) :
    chunk_text ⟨M, m1⟩ text fp t = chunk_text ⟨M, m2⟩ text fp t := rfl

/-! ## Theorems: determinism of `chunk_file` (C8) -/

/-- A chunk with its two invocation-dependent metadata fields (`created_at`,
the `int(time.time())` read, and `file_path`, the path argument) blanked. -/
def chunk_core (c : Chunk) : Chunk :=
  { c with created_at := 0, file_path := "" }

/-- Loop states that agree except possibly in the `created_at`/`file_path`
stamps of already-emitted chunks. -/
def stEq (st1 st2 : LoopState) : Prop :=
  st1.heading_stack = st2.heading_stack
  ∧ st1.current_lines = st2.current_lines
  ∧ st1.current_length = st2.current_length
  ∧ st1.chunk_index = st2.chunk_index
  ∧ st1.chunks.map chunk_core = st2.chunks.map chunk_core

/-- `add_chunk` only uses its time/path arguments for the two stamp
fields. -/
theorem add_chunk_core (t1 t2 : ℤ) (fp1 fp2 : String) (st1 st2 : LoopState)
    (body : String) (h : stEq st1 st2) :
    stEq (add_chunk t1 fp1 st1 body) (add_chunk t2 fp2 st2 body) := by
  obtain ⟨h1, h2, h3, h4, h5⟩ := h
  simp only [stEq, add_chunk]
  split_ifs
  · exact ⟨h1, h2, h3, h4, h5⟩
  · refine ⟨h1, rfl, rfl, by simp [h4], ?_⟩
    simp only [List.map_append, List.map_cons, List.map_nil, h5]
    simp [chunk_core, h1, h4]

/-- `flush_current` only uses its time/path arguments for the stamps. -/
theorem flush_current_core (t1 t2 : ℤ) (fp1 fp2 : String)
    (st1 st2 : LoopState) (h : stEq st1 st2) :
    stEq (flush_current t1 fp1 st1) (flush_current t2 fp2 st2) := by
  have h2 : st1.current_lines = st2.current_lines := h.2.1
  simp only [flush_current, h2]
  split_ifs
  · exact add_chunk_core _ _ _ _ _ _ _ h
  · exact h

/-- `process_segment` only uses its time/path arguments for the stamps. -/
theorem process_segment_core (maxc : ℕ) (t1 t2 : ℤ) (fp1 fp2 : String)
    (st1 st2 : LoopState) (seg : String) (h : stEq st1 st2) :
    stEq (process_segment maxc t1 fp1 st1 seg)
      (process_segment maxc t2 fp2 st2 seg) := by
  have h3 : st1.current_length = st2.current_length := h.2.2.1
  simp only [process_segment, h3]
  split_ifs with hA hB hC
  · exact h
  · exact add_chunk_core _ _ _ _ _ _ _ (flush_current_core _ _ _ _ _ _ h)
  · have hf := flush_current_core t1 t2 fp1 fp2 st1 st2 h
    exact ⟨hf.1, by rw [hf.2.1], by rw [hf.2.2.1], hf.2.2.2.1, hf.2.2.2.2⟩
  · exact ⟨h.1, by rw [h.2.1], by rw [h3], h.2.2.2.1, h.2.2.2.2⟩

/-- `process_block` only uses its time/path arguments for the stamps. -/
theorem process_block_core (maxc : ℕ) (tmap : List (String × String))
    (t1 t2 : ℤ) (fp1 fp2 : String) (st1 st2 : LoopState) (b : Block)
    (h : stEq st1 st2) :
    stEq (process_block maxc tmap t1 fp1 st1 b)
      (process_block maxc tmap t2 fp2 st2 b) := by
  simp only [process_block]
  split_ifs
  · have hf := flush_current_core t1 t2 fp1 fp2 st1 st2 h
    exact ⟨by simp [hf.1], hf.2.1, hf.2.2.1, hf.2.2.2.1, hf.2.2.2.2⟩
  · exact add_chunk_core _ _ _ _ _ _ _ (flush_current_core _ _ _ _ _ _ h)
  · generalize block_to_segments maxc b = segs
    induction segs generalizing st1 st2 with
    | nil => exact h
    | cons s rest ih =>
      simp only [List.foldl_cons]
      exact ih _ _ (process_segment_core maxc t1 t2 fp1 fp2 st1 st2 s h)

/-- The whole block fold only uses its time/path arguments for the stamps. -/
theorem foldl_blocks_core (maxc : ℕ) (tmap : List (String × String))
    (t1 t2 : ℤ) (fp1 fp2 : String) (blocks : List Block)
    (st1 st2 : LoopState) (h : stEq st1 st2) :
    stEq (blocks.foldl (process_block maxc tmap t1 fp1) st1)
      (blocks.foldl (process_block maxc tmap t2 fp2) st2) := by
  induction blocks generalizing st1 st2 with
  | nil => exact h
  | cons b rest ih =>
    simp only [List.foldl_cons]
    exact ih _ _ (process_block_core maxc tmap t1 t2 fp1 fp2 st1 st2 b h)

/-- C8 counterexample: `chunk_file` is not pure in the claimed sense — two
invocations on byte-identical contents differ in the `file_path` field when
the paths differ, and in the `created_at` field when the clock reads
differ. -/
theorem chunk_file_not_pure :
    (chunk_file ⟨600, 200⟩ "a.md" "hello" 0).map (fun c => c.file_path)
      = ["a.md"]
    ∧ (chunk_file ⟨600, 200⟩ "b.md" "hello" 0).map (fun c => c.file_path)
      = ["b.md"]
    ∧ (chunk_file ⟨600, 200⟩ "a.md" "hello" 0).map (fun c => c.created_at)
      = [0]
    ∧ (chunk_file ⟨600, 200⟩ "a.md" "hello" 1).map (fun c => c.created_at)
      = [1]
    ∧ chunk_file ⟨600, 200⟩ "a.md" "hello" 0
        ≠ chunk_file ⟨600, 200⟩ "b.md" "hello" 0
    ∧ chunk_file ⟨600, 200⟩ "a.md" "hello" 0
        ≠ chunk_file ⟨600, 200⟩ "a.md" "hello" 1 := by
  have hp1 : (chunk_file ⟨600, 200⟩ "a.md" "hello" 0).map
      (fun c => c.file_path) = ["a.md"] := by decide
  have hp2 : (chunk_file ⟨600, 200⟩ "b.md" "hello" 0).map
      (fun c => c.file_path) = ["b.md"] := by decide
  have ht1 : (chunk_file ⟨600, 200⟩ "a.md" "hello" 0).map
      (fun c => c.created_at) = [0] := by decide
  have ht2 : (chunk_file ⟨600, 200⟩ "a.md" "hello" 1).map
      (fun c => c.created_at) = [1] := by decide
  refine ⟨hp1, hp2, ht1, ht2, ?_, ?_⟩
  · intro heq
    rw [congrArg (List.map (fun c => c.file_path)) heq, hp2] at hp1
    exact absurd hp1 (by decide)
  · intro heq
    rw [congrArg (List.map (fun c => c.created_at)) heq, ht2] at ht1
    exact absurd ht1 (by decide)

/-- C8 amended: `chunk_text` threads the clock read only into `created_at`
and the path only into `file_path`; stripping those two stamps, the chunk
sequence is a pure function of the configuration and the file contents:
equal bytes in, equal de-stamped chunk sequence out. -/
theorem chunk_file_pure_modulo_stamps (cfg : MarkdownChunker)
    (contents p1 p2 : String) (t1 t2 : ℤ) :
    (chunk_file cfg p1 contents t1).map chunk_core
      = (chunk_file cfg p2 contents t2).map chunk_core := by
  have h := flush_current_core t1 t2 p1 p2 _ _
    (foldl_blocks_core cfg.max_chunk_chars (extract_tables contents).2 t1 t2
      p1 p2 (split_into_blocks (extract_tables contents).1)
      ⟨[], [], 0, [], 0⟩ ⟨[], [], 0, [], 0⟩ ⟨rfl, rfl, rfl, rfl, rfl⟩)
  simp only [chunk_file, chunk_text]
  obtain ⟨g1, g2, g3, g4, g5⟩ := h
  split_ifs with hc1 hc2 hc2
  · simp [chunk_core, g1]
  · refine absurd ⟨?_, ?_⟩ hc2
    · have h5 := g5
      rw [hc1.1] at h5
      simpa using h5.symm
    · rw [← g1]
      exact hc1.2
  · refine absurd ⟨?_, ?_⟩ hc1
    · have h5 := g5
      rw [hc2.1] at h5
      simpa using h5
    · rw [g1]
      exact hc2.2
  · exact g5

/-! ## Theorems: table chunks (C6) -/

/-- The head surviving `dropWhile` fails the predicate. -/
theorem head?_dropWhile_false {α : Type} (p : α → Bool) :
    ∀ (l : List α) (a : α), (l.dropWhile p).head? = some a →
      p a = false := by
  intro l
  induction l with
  | nil => intro a h; simp at h
  | cons c t ih =>
    intro a h
    by_cases hc : p c
    · rw [List.dropWhile_cons_of_pos hc] at h
      exact ih a h
    · rw [List.dropWhile_cons_of_neg hc] at h
      simp only [List.head?_cons, Option.some.injEq] at h
      subst h
      simpa using hc

/-- `dropWhile` is idempotent. -/
theorem dropWhile_idem (p : Char → Bool) (l : List Char) :
    (l.dropWhile p).dropWhile p = l.dropWhile p := by
  cases hd : l.dropWhile p with
  | nil => rfl
  | cons c t =>
    have hc := head?_dropWhile_false p l c (by rw [hd]; rfl)
    rw [List.dropWhile_cons_of_neg (by simp [hc])]

/-- Python strip is idempotent. -/
theorem pyStripList_idem (l : List Char) :
    pyStripList (pyStripList l) = pyStripList l := by
  have key : ∀ (A B : List Char), A.dropWhile Char.isWhitespace = A →
      (A.reverse.dropWhile Char.isWhitespace).reverse = B →
      ((B.dropWhile Char.isWhitespace).reverse.dropWhile
        Char.isWhitespace).reverse = B := by
    intro A B hA hB
    have hBrev : B.reverse = A.reverse.dropWhile Char.isWhitespace := by
      rw [← hB, List.reverse_reverse]
    have hBA : B <+: A := by
      rw [← List.reverse_suffix, hBrev]
      exact List.dropWhile_suffix Char.isWhitespace
    have hB1 : B.dropWhile Char.isWhitespace = B := by
      cases hBd : B with
      | nil => rfl
      | cons b bs =>
        have hAhead : A.head? = some b := by
          obtain ⟨t, ht⟩ := hBA
          rw [← ht, hBd]
          rfl
        have hbp : b.isWhitespace = false := by
          have hh := head?_dropWhile_false Char.isWhitespace A b
          rw [hA] at hh
          exact hh hAhead
        rw [List.dropWhile_cons_of_neg (by simp [hbp])]
    have hB2 : B.reverse.dropWhile Char.isWhitespace = B.reverse := by
      rw [hBrev]
      exact dropWhile_idem Char.isWhitespace A.reverse
    rw [hB1, hB2, List.reverse_reverse]
  unfold pyStripList
  exact key (l.dropWhile Char.isWhitespace) _ (dropWhile_idem _ l) rfl

/-- `pyStrip` is idempotent. -/
theorem pyStrip_idem (s : String) : pyStrip (pyStrip s) = pyStrip s := by
  unfold pyStrip
  rw [show (String.mk (pyStripList s.data)).data = pyStripList s.data from rfl,
    pyStripList_idem]

/-- A case-insensitive prefix is no longer than the text. -/
theorem ciIsPrefixOf_length {n h : List Char}
    (hp : ciIsPrefixOf n h = true) : n.length ≤ h.length := by
  unfold ciIsPrefixOf at hp
  have := (List.isPrefixOf_iff_prefix.mp hp).length_le
  simpa using this

/-- A case-insensitive prefix of a long-enough take. -/
theorem ciIsPrefixOf_take {n l : List Char} (k : ℕ)
    (h : ciIsPrefixOf n l = true) (hk : n.length ≤ k) :
    ciIsPrefixOf n (l.take k) = true := by
  unfold ciIsPrefixOf at *
  rw [List.map_take]
  exact List.isPrefixOf_iff_prefix.mpr (List.prefix_take_iff.mpr
    ⟨List.isPrefixOf_iff_prefix.mp h, by simpa using hk⟩)

/-- A case-insensitive prefix of a take is one of the whole list. -/
theorem ciIsPrefixOf_of_take {n l : List Char} {k : ℕ}
    (h : ciIsPrefixOf n (l.take k) = true) : ciIsPrefixOf n l = true := by
  unfold ciIsPrefixOf at *
  rw [List.map_take] at h
  exact List.isPrefixOf_iff_prefix.mpr
    (List.prefix_take_iff.mp (List.isPrefixOf_iff_prefix.mp h)).1

/-- `findCI` finds an occurrence. -/
theorem findCI_found (n : List Char) : ∀ (l : List Char) (j : ℕ),
    findCI n l = some j → ciIsPrefixOf n (l.drop j) = true := by
  intro l
  induction l with
  | nil =>
    intro j h
    simp only [findCI] at h
    split_ifs at h with he
    · obtain rfl : 0 = j := Option.some.inj h
      unfold ciIsPrefixOf
      rw [List.isEmpty_iff] at he
      subst he
      rfl
  | cons c t ih =>
    intro j h
    simp only [findCI] at h
    split_ifs at h with hp
    · obtain rfl : 0 = j := Option.some.inj h
      simpa using hp
    · cases hft : findCI n t with
      | none => rw [hft] at h; cases h
      | some j' =>
        rw [hft] at h
        simp only [Option.map_some', Option.some.injEq] at h
        subst h
        simpa using ih j' hft

/-- `findCI` finds the first occurrence. -/
theorem findCI_min (n : List Char) : ∀ (l : List Char) (j : ℕ),
    findCI n l = some j → ∀ i, i < j → ciIsPrefixOf n (l.drop i) = false := by
  intro l
  induction l with
  | nil =>
    intro j h i hi
    simp only [findCI] at h
    split_ifs at h with he
    · obtain rfl : 0 = j := Option.some.inj h
      omega
  | cons c t ih =>
    intro j h i hi
    simp only [findCI] at h
    split_ifs at h with hp
    · obtain rfl : 0 = j := Option.some.inj h
      omega
    · cases hft : findCI n t with
      | none => rw [hft] at h; cases h
      | some j' =>
        rw [hft] at h
        simp only [Option.map_some', Option.some.injEq] at h
        subst h
        cases i with
        | zero => simpa using hp
        | succ i' => simpa using ih j' hft i' (by omega)

/-- Anatomy of a matched table span: length `6 + j + 8`, a case-insensitive
`<table` prefix, the closing tag at offset `6 + j`, and no closing tag
between the opening tag and it. -/
theorem tableSplit_span_anatomy (l pre span post : List Char)
    (h : tableSplit l = some (pre, span, post)) :
    ∃ j : ℕ, span.length = 6 + j + 8
    ∧ ciIsPrefixOf "<table".data span = true
    ∧ ciIsPrefixOf "</table>".data (span.drop (6 + j)) = true
    ∧ ∀ p, 6 ≤ p → p < 6 + j →
        ciIsPrefixOf "</table>".data (span.drop p) = false := by
  unfold tableSplit at h
  split at h
  next => cases h
  next i hfi =>
    dsimp only [] at h
    split at h
    next => cases h
    next j hfj =>
      simp only [Option.some.injEq, Prod.mk.injEq] at h
      obtain ⟨hpre, hspan, hpost⟩ := h
      subst hspan
      have hopen : ciIsPrefixOf "<table".data (l.drop i) = true :=
        findCI_found _ _ _ hfi
      have hclosej : ciIsPrefixOf "</table>".data
          (((l.drop i).drop 6).drop j) = true := findCI_found _ _ _ hfj
      have hLlen := ciIsPrefixOf_length hclosej
      simp only [List.length_drop] at hLlen
      have h8len : ("</table>".data).length = 8 := by decide
      rw [h8len] at hLlen
      have hdd : ((l.drop i).drop 6).drop j = (l.drop i).drop (6 + j) := by
        rw [List.drop_drop]
      refine ⟨j, ?_, ?_, ?_, ?_⟩
      · rw [List.length_take, List.length_drop]
        omega
      · refine ciIsPrefixOf_take (6 + j + 8) hopen ?_
        have h6 : ("<table".data).length = 6 := by decide
        omega
      · rw [List.drop_take]
        rw [show 6 + j + 8 - (6 + j) = 8 from by omega]
        rw [hdd] at hclosej
        exact ciIsPrefixOf_take 8 hclosej (by decide)
      · intro p hp6 hpj
        rcases hcv : ciIsPrefixOf "</table>".data
            (((l.drop i).take (6 + j + 8)).drop p) with _ | _
        · rfl
        · exfalso
          rw [List.drop_take] at hcv
          have hfull := ciIsPrefixOf_of_take hcv
          have hEq : ((l.drop i).drop 6).drop (p - 6) = (l.drop i).drop p := by
            rw [List.drop_drop]
            congr 1
            omega
          rw [← hEq] at hfull
          have hmin := findCI_min _ _ _ hfj (p - 6) (by omega)
          rw [hmin] at hfull
          cases hfull

/-- In a matched table span there is exactly one (case-insensitive)
occurrence of the closing `</table>` tag. -/
theorem tableSplit_close_unique (l pre span post : List Char)
    (h : tableSplit l = some (pre, span, post)) :
    ∃! p : ℕ, ciIsPrefixOf "</table>".data (span.drop p) = true := by
  obtain ⟨j, hlen, hopen, hclose, hmid⟩ :=
    tableSplit_span_anatomy l pre span post h
  refine ⟨6 + j, hclose, ?_⟩
  intro p hp
  rcases lt_trichotomy p (6 + j) with hlt | heq | hgt
  · exfalso
    rcases Nat.lt_or_ge p 6 with h6 | h6
    · obtain ⟨rest2, hrest⟩ := List.isPrefixOf_iff_prefix.mp
        (show ("<table".data.map Char.toLower).isPrefixOf
          (span.map Char.toLower) from hopen)
      have hlow : span.map Char.toLower = "<table".data ++ rest2 := by
        rw [← hrest]
        rfl
      have hfalse : ciIsPrefixOf "</table>".data (span.drop p) = false := by
        unfold ciIsPrefixOf
        rw [List.map_drop, hlow]
        interval_cases p <;> rfl
      rw [hfalse] at hp
      cases hp
    · have hmf := hmid p h6 hlt
      rw [hmf] at hp
      cases hp
  · exact heq
  · exfalso
    have hlp := ciIsPrefixOf_length hp
    rw [List.length_drop, hlen] at hlp
    have h8 : ("</table>".data).length = 8 := by decide
    omega

/-- A matched table span strips to itself (it starts with `<` and ends with
`>`). -/
theorem tableSplit_span_strip (l pre span post : List Char)
    (h : tableSplit l = some (pre, span, post)) :
    pyStripList span = span := by
  obtain ⟨j, hlen, hopen, hclose, -⟩ :=
    tableSplit_span_anatomy l pre span post h
  obtain ⟨rest2, hrest⟩ := List.isPrefixOf_iff_prefix.mp
    (show ("<table".data.map Char.toLower).isPrefixOf
      (span.map Char.toLower) from hopen)
  have hlow : span.map Char.toLower = "<table".data ++ rest2 := by
    rw [← hrest]
    rfl
  have hdlen : (span.drop (6 + j)).length = 8 := by
    rw [List.length_drop, hlen]
    omega
  have hd8 : (span.drop (6 + j)).map Char.toLower = "</table>".data := by
    have hpre := List.isPrefixOf_iff_prefix.mp
      (show ("</table>".data.map Char.toLower).isPrefixOf
        ((span.drop (6 + j)).map Char.toLower) from hclose)
    have hcl : ("</table>".data.map Char.toLower) = "</table>".data := by decide
    rw [hcl] at hpre
    refine (List.IsPrefix.eq_of_length hpre ?_).symm
    rw [List.length_map, hdlen]
    decide
  have hws4 : ∀ c : Char, c.isWhitespace = true →
      c = ' ' ∨ c = '\t' ∨ c = '\r' ∨ c = '\n' := by
    intro c hw
    simp [Char.isWhitespace] at hw
    tauto
  cases hsp : span with
  | nil =>
    rw [hsp] at hlen
    simp at hlen
  | cons c cs =>
    have hclow : c.toLower = '<' := by
      have hh := congrArg List.head? hlow
      rw [hsp] at hh
      simp only [List.map_cons, List.head?_cons] at hh
      have : List.head? ("<table".data ++ rest2) = some '<' := rfl
      rw [this] at hh
      exact Option.some.inj hh
    have hcw : c.isWhitespace = false := by
      rcases hw : c.isWhitespace with _ | _
      · rfl
      · exfalso
        rcases hws4 c hw with rfl | rfl | rfl | rfl <;>
          exact absurd hclow (by decide)
    have hlast : ∃ e, span.getLast? = some e ∧ e.toLower = '>' := by
      cases hdr : span.drop (6 + j) with
      | nil =>
        rw [hdr] at hdlen
        cases hdlen
      | cons d ds =>
        have hg : span.getLast? = (d :: ds).getLast? := by
          conv_lhs => rw [← List.take_append_drop (6 + j) span, hdr]
          exact List.getLast?_append_of_ne_nil _ (by simp)
        have hgm := congrArg List.getLast? hd8
        rw [hdr, List.getLast?_map] at hgm
        have hgt : ("</table>".data).getLast? = some '>' := rfl
        rw [hgt] at hgm
        cases hge : (d :: ds).getLast? with
        | none => simp at hge
        | some e =>
          rw [hge] at hgm
          simp only [Option.map_some', Option.some.injEq] at hgm
          exact ⟨e, by rw [hg, hge], hgm⟩
    obtain ⟨e, he, helow⟩ := hlast
    have hew : e.isWhitespace = false := by
      rcases hw : e.isWhitespace with _ | _
      · rfl
      · exfalso
        rcases hws4 e hw with rfl | rfl | rfl | rfl <;>
          exact absurd helow (by decide)
    rw [← hsp]
    unfold pyStripList
    have h1 : span.dropWhile Char.isWhitespace = span := by
      rw [hsp]
      exact List.dropWhile_cons_of_neg (by simp [hcw])
    rw [h1]
    have h2 : span.reverse.dropWhile Char.isWhitespace = span.reverse := by
      cases hrv : span.reverse with
      | nil => rfl
      | cons r rs =>
        have hr : span.getLast? = some r := by
          rw [← List.head?_reverse, hrv]
          rfl
        have : r = e := by
          rw [hr] at he
          exact Option.some.inj he
        subst this
        exact List.dropWhile_cons_of_neg (by simp [hew])
    rw [h2, List.reverse_reverse]

/-- Every stored table-map entry is the strip of a matched span. -/
theorem extract_tables_go_mem : ∀ (fuel : ℕ) (l : List Char) (n : ℕ)
    (ph sp : String), (ph, sp) ∈ (extract_tables_go fuel l n).2 →
    ∃ l0 pre span post, tableSplit l0 = some (pre, span, post)
      ∧ sp = String.mk (pyStripList span) := by
  intro fuel
  induction fuel with
  | zero =>
    intro l n ph sp h
    simp [extract_tables_go] at h
  | succ fuel ih =>
    intro l n ph sp h
    simp only [extract_tables_go] at h
    cases hts : tableSplit l with
    | none =>
      rw [hts] at h
      simp at h
    | some tr =>
      obtain ⟨pre, tr2⟩ := tr
      obtain ⟨span, post⟩ := tr2
      rw [hts] at h
      simp only [List.mem_cons] at h
      rcases h with h | h
      · exact ⟨l, pre, span, post, hts, congrArg Prod.snd h⟩
      · exact ih post (n + 1) ph sp h

/-- Every stored entry of `_extract_tables` is the strip of a matched
span. -/
theorem extract_tables_mem (text : String) (ph sp : String)
    (h : (ph, sp) ∈ (extract_tables text).2) :
    ∃ l0 pre span post, tableSplit l0 = some (pre, span, post)
      ∧ sp = String.mk (pyStripList span) :=
  extract_tables_go_mem text.data.length text.data 0 ph sp h

/-- `add_chunk` leaves the heading stack alone. -/
theorem add_chunk_stack (t : ℤ) (fp : String) (st : LoopState)
    (body : String) : (add_chunk t fp st body).heading_stack
      = st.heading_stack := by
  simp only [add_chunk]
  split_ifs <;> rfl

/-- `flush_current` leaves the heading stack alone. -/
theorem flush_current_stack (t : ℤ) (fp : String) (st : LoopState) :
    (flush_current t fp st).heading_stack = st.heading_stack := by
  simp only [flush_current]
  split_ifs
  · exact add_chunk_stack t fp st _
  · rfl

/-- C6 counterexample, both conjuncts of the claim. First, a table under a
heading produces a chunk whose `chunk_text` is the heading line, a blank
line, then the table span — not the bare span the claim requires. Second,
on a nested table the lazy match stops at the first closing tag, so the
emitted table chunk holds two `<table>` open tags but only one `</table>`
close tag — not exactly one balanced pair. -/
theorem table_chunk_heading_composed :
    ((chunk_text ⟨200, 50⟩ "# A\n<table>x</table>" "f.md" 0).map
      (fun c => (c.chunk_text, c.chunk_type))
      = [("# A\n\n<table>x</table>", "table")]
    ∧ "# A\n\n<table>x</table>" ≠ "<table>x</table>")
    ∧ ((chunk_text ⟨200, 50⟩ "<table>a<table>b</table>" "f.md" 0).map
      (fun c => (c.chunk_text, c.chunk_type))
      = [("<table>a<table>b</table>", "table")]
    ∧ countCI "<table>".data "<table>a<table>b</table>".data = 2
    ∧ countCI "</table>".data "<table>a<table>b</table>".data = 1) := by
  exact ⟨⟨by decide, by decide⟩, by decide, by decide, by decide⟩

/-- C6 amended: a table block is emitted as a single chunk whose
`chunk_text` is the composition of the open heading lines, a blank line and
the original table span (so the span alone exactly when no heading is
open); every recorded table span starts with a case-insensitive `<table`
open tag and contains exactly one case-insensitive occurrence of the
closing `</table>` tag (further open tags may appear inside the span, as
the lazy match swallows nested opens). -/
theorem table_chunks_amended :
    (∀ (maxc : ℕ) (tmap : List (String × String)) (t : ℤ) (fp : String)
        (st : LoopState) (b : Block), b.type = "table" →
      pyStrip ((tmap.lookup (pyStrip b.text)).getD b.text) ≠ "" →
      ∃ c : Chunk,
        (process_block maxc tmap t fp st b).chunks
          = (flush_current t fp st).chunks ++ [c]
        ∧ c.chunk_text = compose_chunk_text
            ((tmap.lookup (pyStrip b.text)).getD b.text)
            (st.heading_stack.map (fun h => h.line))
        ∧ (st.heading_stack = [] →
            c.chunk_text = pyStrip ((tmap.lookup (pyStrip b.text)).getD b.text)))
    ∧ (∀ (text ph sp : String), (ph, sp) ∈ (extract_tables text).2 →
        ciIsPrefixOf "<table".data sp.data = true
        ∧ ∃! p : ℕ, ciIsPrefixOf "</table>".data (sp.data.drop p) = true) := by
  constructor
  · intro maxc tmap t fp st b hb hne
    simp only [process_block, hb]
    simp only [if_true]
    simp only [add_chunk]
    rw [if_neg hne]
    refine ⟨_, rfl, ?_, ?_⟩
    · rw [flush_current_stack]
      show compose_chunk_text
        (pyStrip ((tmap.lookup (pyStrip b.text)).getD b.text)) _ = _
      unfold compose_chunk_text
      rw [pyStrip_idem]
    · intro hs
      rw [flush_current_stack, hs]
      show compose_chunk_text
        (pyStrip ((tmap.lookup (pyStrip b.text)).getD b.text)) [] = _
      unfold compose_chunk_text
      rw [pyStrip_idem]
      rw [if_neg hne]
      rw [if_pos rfl]
  · intro text ph sp h
    obtain ⟨l0, pre, span, post, hts, hsp⟩ := extract_tables_mem text ph sp h
    have hstrip := tableSplit_span_strip l0 pre span post hts
    have hdata : sp.data = span := by
      rw [hsp]
      show pyStripList span = span
      exact hstrip
    obtain ⟨j, hlen, hopen, hclose, hmid⟩ :=
      tableSplit_span_anatomy l0 pre span post hts
    rw [hdata]
    exact ⟨hopen, tableSplit_close_unique l0 pre span post hts⟩

/-- Witness for C6 amended at the counterexample document: the table chunk
is emitted under the heading stack of "# A", and the recorded span
"<table>x</table>" starts with the open tag and has exactly one closing
tag (at offset 8). -/
theorem table_chunks_amended_witness :
    (∃ c : Chunk,
      (process_block 200 [("[[TABLE_BLOCK_0]]", "<table>x</table>")] 0 "f.md"
        ⟨[⟨1, "A", "# A"⟩], [], 0, [], 0⟩
        ⟨"table", "[[TABLE_BLOCK_0]]", none, none⟩).chunks
        = (flush_current 0 "f.md"
            ⟨[⟨1, "A", "# A"⟩], [], 0, [], 0⟩).chunks ++ [c]
      ∧ c.chunk_text = compose_chunk_text
          (((([("[[TABLE_BLOCK_0]]", "<table>x</table>")] : List (String × String)).lookup
            (pyStrip "[[TABLE_BLOCK_0]]")).getD "[[TABLE_BLOCK_0]]"))
          (([⟨1, "A", "# A"⟩] : List HeadingInfo).map (fun h => h.line))
      ∧ (([⟨1, "A", "# A"⟩] : List HeadingInfo) = [] →
          c.chunk_text = pyStrip ((([("[[TABLE_BLOCK_0]]",
            "<table>x</table>")] : List (String × String)).lookup
            (pyStrip "[[TABLE_BLOCK_0]]")).getD "[[TABLE_BLOCK_0]]")))
    ∧ (ciIsPrefixOf "<table".data ("<table>x</table>" : String).data = true
    ∧ ∃! p : ℕ, ciIsPrefixOf "</table>".data
        (("<table>x</table>" : String).data.drop p) = true) := by
  constructor
  · exact table_chunks_amended.1 200
      [("[[TABLE_BLOCK_0]]", "<table>x</table>")] 0 "f.md"
      ⟨[⟨1, "A", "# A"⟩], [], 0, [], 0⟩
      ⟨"table", "[[TABLE_BLOCK_0]]", none, none⟩ rfl (by decide)
  · exact table_chunks_amended.2 "# A\n<table>x</table>" "[[TABLE_BLOCK_0]]"
      "<table>x</table>" (by decide)

/-! ## Theorems: heading stack and title-path invariants (C10) -/

/-- Levels carried by parsed blocks are well-formed (`1..6` or absent). -/
def block_level_ok (b : Block) : Prop :=
  ∀ lv, b.level = some lv → 1 ≤ lv ∧ lv ≤ 6

/-- A matched heading has level between 1 and 6. -/
theorem headingMatch_level (s : String) (lt : ℕ × String)
    (h : headingMatch s = some lt) : 1 ≤ lt.1 ∧ lt.1 ≤ 6 := by
  simp only [headingMatch] at h
  split at h
  next hk =>
    split at h
    next c cs hd =>
      split at h
      next hw =>
        obtain rfl := Option.some.inj h
        exact hk
      next hw => cases h
    next hd => cases h
  next hk => cases h

/-- Variant of the heading-level bound keyed on the extracted level. -/
theorem headingMatch_level2 (s : String) (lt : ℕ × String)
    (h : headingMatch s = some lt) (lv : ℕ) (he : lt.1 = lv) :
    1 ≤ lv ∧ lv ≤ 6 := he ▸ headingMatch_level s lt h

/-- The block parser only produces heading levels in `1..6`. -/
theorem split_lines_go_levels :
    ∀ (lines : List (List Char)) (blocks : List Block) (buf : List String)
      (bt : Option String) (ic : Bool) (fence : Option String),
      (∀ b ∈ blocks, block_level_ok b) →
      ∀ b ∈ split_lines_go lines blocks buf bt ic fence, block_level_ok b := by
  intro lines
  induction lines with
  | nil =>
    intro blocks buf bt ic fence hacc b hb
    simp only [split_lines_go] at hb
    split_ifs at hb
    · exact hacc b hb
    · rcases List.mem_append.mp hb with h | h
      · exact hacc b h
      · rw [List.mem_singleton] at h
        subst h
        intro lv hlv
        cases hlv
  | cons line ls ih =>
    intro blocks buf bt ic fence hacc b hb
    simp only [split_lines_go] at hb
    repeat' split at hb
    all_goals
      refine ih _ _ _ _ _ ?_ b hb
      intro x hx
      first
      | exact hacc x hx
      | (rcases List.mem_append.mp hx with hx1 | hx1
         · exact hacc x hx1
         · rw [List.mem_singleton] at hx1
           subst hx1
           intro lv hlv
           first
           | (injection hlv with hlv2
              exact headingMatch_level2 _ _ (by assumption) lv hlv2)
           | injection hlv)
      | (rcases List.mem_append.mp hx with hx1 | hx1
         · rcases List.mem_append.mp hx1 with hx2 | hx2
           · exact hacc x hx2
           · rw [List.mem_singleton] at hx2
             subst hx2
             intro lv hlv
             cases hlv
         · rw [List.mem_singleton] at hx1
           subst hx1
           intro lv hlv
           first
           | (injection hlv with hlv2
              exact headingMatch_level2 _ _ (by assumption) lv hlv2)
           | injection hlv)

/-- Blocks produced by `_split_into_blocks` carry levels in `1..6`. -/
theorem split_into_blocks_levels (text : String) :
    ∀ b ∈ split_into_blocks text, block_level_ok b := by
  intro b hb
  exact split_lines_go_levels _ [] [] none false none
    (by intro x hx; cases hx) b hb

/-- The invariant of the heading stack: strictly increasing levels, each in
`1..6`. -/
def stack_ok (stack : List HeadingInfo) : Prop :=
  List.Chain' (fun a b => a.level < b.level) stack
  ∧ ∀ h ∈ stack, 1 ≤ h.level ∧ h.level ≤ 6

/-- A strictly increasing stack of levels in `1..6` has depth at most 6. -/
theorem stack_ok_length (stack : List HeadingInfo) (h : stack_ok stack) :
    stack.length ≤ 6 := by
  obtain ⟨hchain, hmem⟩ := h
  have hmap : List.Chain' (· < ·) (stack.map (fun x => x.level)) :=
    (List.chain'_map _).mpr hchain
  have hpw : (stack.map (fun x => x.level)).Pairwise (· < ·) :=
    List.chain'_iff_pairwise.mp hmap
  have hnd : (stack.map (fun x => x.level)).Nodup :=
    hpw.imp (fun hlt => Nat.ne_of_lt hlt)
  have h1 : (stack.map (fun x => x.level)).toFinset.card
      = (stack.map (fun x => x.level)).length :=
    List.toFinset_card_of_nodup hnd
  have h2 : (stack.map (fun x => x.level)).toFinset ⊆ Finset.Icc 1 6 := by
    intro x hx
    rw [List.mem_toFinset, List.mem_map] at hx
    obtain ⟨a, ha, rfl⟩ := hx
    rw [Finset.mem_Icc]
    exact hmem a ha
  have h3 := Finset.card_le_card h2
  rw [h1] at h3
  rw [Nat.card_Icc] at h3
  simpa using h3

/-- `_update_heading_stack` preserves the stack invariant. -/
theorem update_heading_stack_ok (stack : List HeadingInfo) (b : Block)
    (hs : stack_ok stack) (hb : block_level_ok b) :
    stack_ok (update_heading_stack stack b) := by
  unfold update_heading_stack
  cases hl : b.level with
  | none => exact hs
  | some lv =>
    obtain ⟨hlv1, hlv6⟩ := hb lv hl
    have hpopped : (stack.reverse.dropWhile
        (fun h => decide (lv ≤ h.level))).reverse <+: stack := by
      rw [← List.reverse_suffix, List.reverse_reverse]
      exact List.dropWhile_suffix _
    constructor
    · rw [List.chain'_append]
      have hpre := List.Chain'.prefix hs.1 hpopped
      refine ⟨hpre, List.chain'_singleton _, ?_⟩
      intro x hx y hy
      rw [List.head?_cons, Option.mem_def, Option.some.injEq] at hy
      subst hy
      rw [List.getLast?_reverse, Option.mem_def] at hx
      have := head?_dropWhile_false _ _ _ hx
      simp only [decide_eq_false_iff_not, not_le] at this
      simpa using this
    · intro x hx
      rcases List.mem_append.mp hx with hx | hx
      · exact hs.2 x (hpopped.subset hx)
      · rw [List.mem_singleton] at hx
        subst hx
        exact ⟨hlv1, hlv6⟩

/-- The chunk-level consequence of the stack invariant. -/
def chunks_ok (cs : List Chunk) : Prop :=
  ∀ c ∈ cs, c.title_path.length ≤ 6 ∧ c.title_level = c.title_path.length

/-- The loop invariant of `chunk_text`. -/
def loop_inv (st : LoopState) : Prop :=
  stack_ok st.heading_stack ∧ chunks_ok st.chunks

/-- `add_chunk` preserves the loop invariant. -/
theorem add_chunk_inv (t : ℤ) (fp : String) (st : LoopState) (body : String)
    (h : loop_inv st) : loop_inv (add_chunk t fp st body) := by
  obtain ⟨h1, h2⟩ := h
  simp only [loop_inv, add_chunk]
  split_ifs
  · exact ⟨h1, h2⟩
  · refine ⟨h1, ?_⟩
    intro c hc
    rcases List.mem_append.mp hc with hc | hc
    · exact h2 c hc
    · rw [List.mem_singleton] at hc
      subst hc
      constructor
      · simp only [List.length_map]
        exact stack_ok_length _ h1
      · rfl

/-- `flush_current` preserves the loop invariant. -/
theorem flush_current_inv (t : ℤ) (fp : String) (st : LoopState)
    (h : loop_inv st) : loop_inv (flush_current t fp st) := by
  simp only [flush_current]
  split_ifs
  · exact add_chunk_inv t fp st _ h
  · exact h

/-- `process_segment` preserves the loop invariant. -/
theorem process_segment_inv (maxc : ℕ) (t : ℤ) (fp : String)
    (st : LoopState) (seg : String) (h : loop_inv st) :
    loop_inv (process_segment maxc t fp st seg) := by
  simp only [process_segment]
  split_ifs with hA hB hC
  · exact h
  · exact add_chunk_inv _ _ _ _ (flush_current_inv _ _ _ h)
  · have hf := flush_current_inv t fp st h
    exact ⟨hf.1, hf.2⟩
  · exact ⟨h.1, h.2⟩

/-- `process_block` preserves the loop invariant. -/
theorem process_block_inv (maxc : ℕ) (tmap : List (String × String))
    (t : ℤ) (fp : String) (st : LoopState) (b : Block)
    (hb : block_level_ok b) (h : loop_inv st) :
    loop_inv (process_block maxc tmap t fp st b) := by
  simp only [process_block]
  split_ifs
  · have hf := flush_current_inv t fp st h
    exact ⟨update_heading_stack_ok _ b hf.1 hb, hf.2⟩
  · exact add_chunk_inv _ _ _ _ (flush_current_inv _ _ _ h)
  · generalize block_to_segments maxc b = segs
    induction segs generalizing st with
    | nil => exact h
    | cons s rest ih =>
      simp only [List.foldl_cons]
      exact ih _ (process_segment_inv maxc t fp st s h)

/-- The block fold preserves the loop invariant. -/
theorem foldl_blocks_inv (maxc : ℕ) (tmap : List (String × String))
    (t : ℤ) (fp : String) (blocks : List Block) (st : LoopState)
    (hb : ∀ b ∈ blocks, block_level_ok b) (h : loop_inv st) :
    loop_inv (blocks.foldl (process_block maxc tmap t fp) st) := by
  induction blocks generalizing st with
  | nil => exact h
  | cons b rest ih =>
    simp only [List.foldl_cons]
    exact ih (process_block maxc tmap t fp st b)
      (fun x hx => hb x (List.mem_cons_of_mem b hx))
      (process_block_inv maxc tmap t fp st b
        (hb b (List.mem_cons_self b rest)) h)

/-- C10: the heading stack is maintained strictly increasing with levels in
`1..6`, so every chunk emitted by `chunk_text` has a `title_path` of at most
6 entries, and its `title_level` is the depth of that path (a value in
`0..6`). -/
theorem title_level_is_path_depth (cfg : MarkdownChunker)
    (text fp : String) (t : ℤ) :
    ∀ c ∈ chunk_text cfg text fp t,
      c.title_path.length ≤ 6 ∧ c.title_level = c.title_path.length
      ∧ c.title_level ≤ 6 := by
  intro c hc
  have hblocks := split_into_blocks_levels (extract_tables text).1
  have hinv : loop_inv (flush_current t fp
      ((split_into_blocks (extract_tables text).1).foldl
        (process_block cfg.max_chunk_chars (extract_tables text).2 t fp)
        ⟨[], [], 0, [], 0⟩)) :=
    flush_current_inv t fp _
      (foldl_blocks_inv cfg.max_chunk_chars (extract_tables text).2 t fp _
        ⟨[], [], 0, [], 0⟩ hblocks
        ⟨⟨List.chain'_nil, by intro x hx; cases hx⟩, by intro x hx; cases hx⟩)
  simp only [chunk_text] at hc
  split_ifs at hc with hcond
  · rw [List.mem_singleton] at hc
    subst hc
    have hlen := stack_ok_length _ hinv.1
    refine ⟨?_, ?_, ?_⟩
    · simpa using hlen
    · simp
    · simpa using hlen
  · obtain ⟨hp, hl⟩ := hinv.2 c hc
    exact ⟨hp, hl, by rw [hl]; exact hp⟩

/-- Witness for C10 at a concrete nested-heading document (the single
emitted chunk has a three-entry title path and title_level 3). -/
theorem title_level_is_path_depth_witness :
    (chunk_text ⟨600, 200⟩ "# 一\n## 二\n### 三\n正文内容。" "" 0).map
      (fun c => (c.title_path, c.title_level)) = [(["一", "二", "三"], 3)]
    ∧ ((chunk_text ⟨600, 200⟩ "# 一\n## 二\n### 三\n正文内容。" "" 0).get
        ⟨0, by decide⟩).title_path.length ≤ 6
    ∧ ((chunk_text ⟨600, 200⟩ "# 一\n## 二\n### 三\n正文内容。" "" 0).get
        ⟨0, by decide⟩).title_level
      = ((chunk_text ⟨600, 200⟩ "# 一\n## 二\n### 三\n正文内容。" "" 0).get
        ⟨0, by decide⟩).title_path.length := by
  have h := title_level_is_path_depth ⟨600, 200⟩ "# 一\n## 二\n### 三\n正文内容。"
    "" 0 ((chunk_text ⟨600, 200⟩ "# 一\n## 二\n### 三\n正文内容。" "" 0).get
      ⟨0, by decide⟩) (List.get_mem _ _ _)
  exact ⟨by decide, h.1, h.2.1⟩

end FinReport
